import Mathlib

/-!
Verification development for the legacy fee-data migration toolkit, centred on
the ledger reconstruction in `complete_fee_transformation.py`.

Shallow embedding conventions:
* Monetary amounts are modelled as `Int` (the Python code uses floats, but all
  claims under study are about the additive bookkeeping, which is exact).
* Dates are modelled as `Nat` ordinals (date parsing is an external utility).
* `uuid.uuid4()` calls are modelled by a deterministic fresh-`Nat` supply
  threaded through the transformation, which captures exactly what the code
  relies on: each generated identifier is fresh.
* Python dicts used as lookup tables are modelled as association lists with
  Python's insertion-order/overwrite semantics (`dictInsert`).
* The four fixed fee-component UUID strings are in bijection with the
  component codes, so components are modelled by the inductive `Component`.
-/

/-- The four fee components handled by the transformation
(`fee_component_mappings`: reg_fee / sec_fee / tut_fee / other_fee). -/
inductive Component where
  | reg : Component
  | sec : Component
  | tut : Component
  | other : Component
deriving DecidableEq

/-- The iteration order of the per-component loops in the source
(`['reg_fee', 'sec_fee', 'tut_fee', 'other_fee']`, which is also the
insertion order of the `payment_amounts` dict). -/
def componentOrder : List Component := [.reg, .sec, .tut, .other]

/-- Ledger event types emitted by the transformation. -/
inductive EventType where
  | CHARGE_CREATED : EventType
  | PAYMENT_RECEIVED : EventType
  | PAYMENT_CANCELLED : EventType
deriving DecidableEq

/-- Output receipt status (`'CANCELLED' if is_cancelled else 'ACTIVE'`). -/
inductive RStatus where
  | ACTIVE : RStatus
  | CANCELLED : RStatus
deriving DecidableEq

/-- One legacy fee receipt row (`alpine_fees_feereceipts`).  The four fee
amounts are `Option Int`: `none` models an absent/NULL cell.  `receipt_no`
is the raw legacy receipt number, `none` modelling an absent value. -/
structure LegacyReceipt where
  id : Nat
  student_id : String
  enrol_id : String
  fee_date : Nat
  reg_fee : Option Int
  sec_fee : Option Int
  tut_fee : Option Int
  other_fee : Option Int
  is_cancelled : Bool
  receipt_no : Option String
deriving DecidableEq

/-- One legacy balance-after snapshot row (`alpine_fees_feereceiptbalancerecord`). -/
structure LegacyBalanceRecord where
  feereceipt_id : Nat
  reg_balance : Option Int
  sec_balance : Option Int
  tut_balance : Option Int
  other_balance : Option Int
deriving DecidableEq

/-- The numeric-field ingestion idiom `float(receipt.get(field, 0) or 0)`:
an absent value is read as `0`; a present value is read as-is (`v or 0`
only maps the falsy number `0` to `0`, which is the identity). -/
def readAmount : Option Int → Int
  | none => 0
  | some v => v

/-- The component amount of a receipt (`payment_amounts[component]`). -/
def paymentAmount (r : LegacyReceipt) : Component → Int
  | .reg => readAmount r.reg_fee
  | .sec => readAmount r.sec_fee
  | .tut => readAmount r.tut_fee
  | .other => readAmount r.other_fee

/-- `calculate_total_amount`: the sum of the four component amounts. -/
def calculate_total_amount (r : LegacyReceipt) : Int :=
  readAmount r.reg_fee + readAmount r.sec_fee + readAmount r.tut_fee + readAmount r.other_fee

/-- `find_balance_record`: first balance record whose `feereceipt_id` matches
the receipt id, if any (the source returns `{}` when there is none). -/
def find_balance_record (brs : List LegacyBalanceRecord) (rid : Nat) :
    Option LegacyBalanceRecord :=
  brs.find? (fun b => b.feereceipt_id == rid)

/-- The component field of a balance record (`balance_field_mapping`). -/
def balanceField (b : LegacyBalanceRecord) : Component → Option Int
  | .reg => b.reg_balance
  | .sec => b.sec_balance
  | .tut => b.tut_balance
  | .other => b.other_balance

/-- `balance_after[component]`: the snapshot balance after the receipt,
read as `0` when the snapshot row or the cell is absent
(`float(balance_record.get(field, 0) or 0)` on a possibly empty dict). -/
def balanceAfter (brs : List LegacyBalanceRecord) (r : LegacyReceipt)
    (c : Component) : Int :=
  match find_balance_record brs r.id with
  | none => 0
  | some b => readAmount (balanceField b c)

/-- One entry of the in-memory `fee_events` list built by
`reconstruct_student_fee_history`; the source stores the whole originating
receipt dict in the event. -/
structure FeeEvent where
  receipt : LegacyReceipt
  component : Component
  event_type : EventType
  amount : Int
  running_balance : Int
  is_initial_charge : Bool
deriving DecidableEq

/-- The initial-charge event synthesised for a component on the first
event-producing receipt: emitted only when the component's payment on that
receipt is positive and the reconstructed balance-before is positive. -/
def chargeEvent? (r : LegacyReceipt) (bal : Component → Int) (c : Component) :
    Option FeeEvent :=
  let p := paymentAmount r c
  if 0 < p then
    let before := bal c + p
    if 0 < before then
      some ⟨r, c, .CHARGE_CREATED, before, before, true⟩
    else none
  else none

/-- The payment event for a component of a receipt: emitted when the payment
amount is positive, with amount `-p` and running balance equal to the
legacy balance-after snapshot. -/
def paymentEvent? (r : LegacyReceipt) (bal : Component → Int) (c : Component) :
    Option FeeEvent :=
  let p := paymentAmount r c
  if 0 < p then some ⟨r, c, .PAYMENT_RECEIVED, -p, bal c, false⟩ else none

/-- All initial-charge events of one receipt, in component order. -/
def chargeEvents (r : LegacyReceipt) (bal : Component → Int) : List FeeEvent :=
  componentOrder.filterMap (chargeEvent? r bal)

/-- All payment events of one receipt, in component order. -/
def paymentEvents (r : LegacyReceipt) (bal : Component → Int) : List FeeEvent :=
  componentOrder.filterMap (paymentEvent? r bal)

/-- The receipt loop of `reconstruct_student_fee_history`: charge events are
appended only while the accumulated `fee_events` list is still empty
(`if not fee_events:`), then the receipt's payment events are appended. -/
def reconstructAux (brs : List LegacyBalanceRecord) :
    List LegacyReceipt → List FeeEvent → List FeeEvent
  | [], acc => acc
  | r :: rest, acc =>
    let bal := balanceAfter brs r
    let acc1 := if acc = [] then acc ++ chargeEvents r bal else acc
    reconstructAux brs rest (acc1 ++ paymentEvents r bal)

/-- The event-synthesis core of `reconstruct_student_fee_history`, applied to
the date-sorted receipt list of one enrollment. -/
def reconstructHistory (brs : List LegacyBalanceRecord)
    (rs : List LegacyReceipt) : List FeeEvent :=
  reconstructAux brs rs []

/-- Stable insertion of a receipt into a date-sorted list: the new element
goes before the first element with a strictly later date, so that elements
with equal dates keep their original relative order. -/
def insertByDate (r : LegacyReceipt) : List LegacyReceipt → List LegacyReceipt
  | [] => [r]
  | x :: xs => if x.fee_date < r.fee_date then x :: insertByDate r xs else r :: x :: xs

/-- `student_receipts.sort(key=...date...)`: Python's stable ascending sort
by date, embedded as stable insertion sort (extensionally equal to any
stable sort by the same key). -/
def sortByDate : List LegacyReceipt → List LegacyReceipt
  | [] => []
  | r :: rest => insertByDate r (sortByDate rest)

/-- The enrollment data kept per enrollment code by `load_mappings`. -/
structure EnrollInfo where
  enrollment_id : String
  student_id : String
  course_id : String
  session_id : String
deriving DecidableEq

/-- The in-memory lookup tables built by `load_mappings`:
`enrollment_lookup` keyed by enrollment code, `student_lookup` keyed by
legacy student id (mapping to the new student id; the unused name/status
fields are omitted). -/
structure Lookups where
  enrollment_lookup : List (String × EnrollInfo)
  student_lookup : List (String × String)
deriving DecidableEq

/-- Python-dict insertion: overwrite in place if the key exists, else append,
preserving dict iteration order. -/
def dictInsert {V : Type} : List (String × V) → String → V → List (String × V)
  | [], k, v => [(k, v)]
  | (k', v') :: rest, k, v =>
    if k' = k then (k, v) :: rest else (k', v') :: dictInsert rest k v

/-- Python-dict key lookup on the association-list model. -/
def dictLookup {V : Type} (m : List (String × V)) (k : String) : Option V :=
  (m.find? (fun p => p.1 == k)).map (fun p => p.2)

/-- The scan `for enrol_code, enrol_data in self.enrollment_lookup.items()`
returning the first enrollment whose (new) student id matches. -/
def scanEnrollments (m : List (String × EnrollInfo)) (sid : String) :
    Option String :=
  (m.find? (fun p => p.2.student_id == sid)).map (fun p => p.2.enrollment_id)

/-- Split a character list on `'/'` (the behaviour of Python's
`"x/y".split('/')` and of `String.splitOn "/"`, embedded structurally so
that it evaluates in the kernel). -/
def splitOnSlash : List Char → List (List Char)
  | [] => [[]]
  | ch :: rest =>
    if ch = '/' then [] :: splitOnSlash rest
    else
      match splitOnSlash rest with
      | [] => [[ch]]
      | seg :: segs => (ch :: seg) :: segs

/-- The pattern extraction `re.search(r'/(\d+)/\d{4}$', enrol_id)` of
resolution strategy 3: the code must end in slash, digits, slash, exactly
four digits; the digit group before the final segment is returned. -/
def extractStudentId (s : String) : Option String :=
  match (splitOnSlash s.data).reverse with
  | last :: prev :: _ :: _ =>
    if last.length = 4 && last.all Char.isDigit && prev.length > 0
        && prev.all Char.isDigit then
      some (String.mk prev)
    else none
  | _ => none

/-- `find_enrollment_id`: tiered resolution of a legacy receipt to a target
enrollment id (direct code lookup, then student-id lookup plus enrollment
scan, then pattern-extracted student id plus enrollment scan). -/
def find_enrollment_id (lk : Lookups) (r : LegacyReceipt) : Option String :=
  match (if r.enrol_id ≠ "" then dictLookup lk.enrollment_lookup r.enrol_id else none) with
  | some info => some info.enrollment_id
  | none =>
    match (match dictLookup lk.student_lookup r.student_id with
           | some mapped => scanEnrollments lk.enrollment_lookup mapped
           | none => none) with
    | some e => some e
    | none =>
      if r.enrol_id ≠ "" then
        match extractStudentId r.enrol_id with
        | some ext =>
          match dictLookup lk.student_lookup ext with
          | some mapped => scanEnrollments lk.enrollment_lookup mapped
          | none => none
        | none => none
      else none

/-- `reconstruct_student_fee_history` in full: select this student's receipts
that resolve to the enrollment, sort them by date, and synthesise the
charge/payment event sequence. -/
def reconstruct_student_fee_history (lk : Lookups)
    (receipts : List LegacyReceipt) (brs : List LegacyBalanceRecord)
    (student_id : String) (enrollment_id : String) : List FeeEvent :=
  let selected := receipts.filter (fun r =>
    r.student_id == student_id && find_enrollment_id lk r == some enrollment_id)
  reconstructHistory brs (sortByDate selected)

/-- An output ledger-event row (`transformed_events`).  `id` and the optional
`receipt_id` are generated identifiers (uuid4 in the source, modelled by a
fresh-`Nat` supply); `receipt_id = none` models the empty-string link. -/
structure EventRec where
  id : Nat
  event_type : EventType
  enrollment_id : String
  fee_component : Component
  amount : Int
  running_balance : Int
  receipt_id : Option Nat
  legacy_receipt_id : Nat
deriving DecidableEq

/-- An output receipt row (`transformed_receipts`), restricted to the fields
the claims are about. -/
structure ReceiptRec where
  id : Nat
  receipt_number : String
  enrollment_id : String
  total_amount : Int
  paid_amount : Int
  status : RStatus
  legacy_receipt_id : Nat
deriving DecidableEq

/-- An output allocation row (`transformed_allocations`). -/
structure AllocationRec where
  id : Nat
  receipt_id : Nat
  ledger_event_id : Nat
  fee_component : Component
  allocated_amount : Int
  enrollment_id : String
  legacy_record_id : Nat
deriving DecidableEq

/-- An output balance-record row (`transformed_balance_records`). -/
structure BalanceRec where
  id : Nat
  receipt_id : Nat
  fee_component : Component
  charge_amount : Int
  paid_amount : Int
  balance_amount : Int
  legacy_record_id : Nat
deriving DecidableEq

/-- The four output tables of the transformation. -/
structure Outputs where
  receipts : List ReceiptRec
  events : List EventRec
  allocations : List AllocationRec
  balances : List BalanceRec
deriving DecidableEq

/-- Little-endian decimal digits with explicit fuel (the fuel `n` always
suffices since `n / 10 < n` for `n ≥ 1`). -/
def decDigitsAux : Nat → Nat → List Nat
  | 0, _ => []
  | fuel + 1, n => if n = 0 then [] else n % 10 :: decDigitsAux fuel (n / 10)

/-- Little-endian decimal digits of a natural number (empty for `0`). -/
def decDigits (n : Nat) : List Nat := decDigitsAux n n

/-- The decimal character string of a natural number, most significant digit
first (empty for `0`; the zero case is absorbed by the padding below). -/
def decChars (n : Nat) : List Char := (decDigits n).reverse.map Nat.digitChar

/-- The synthetic receipt-number format `f"MIG-{counter:06d}"`: decimal,
left-padded with zeros to at least six digits. -/
def migFormat (n : Nat) : String :=
  "MIG-" ++ String.mk (List.replicate (6 - (decChars n).length) '0' ++ decChars n)

/-- Python's `str.strip()`: drop whitespace from both ends (embedded as a
structural char-list function so that it evaluates in the kernel). -/
def pyStrip (s : String) : String :=
  ⟨((s.data.dropWhile Char.isWhitespace).reverse.dropWhile
      Char.isWhitespace).reverse⟩

/-- The receipt-numbering state: the `used_receipt_numbers` set (modelled as
a list) and the `receipt_counter`. -/
structure NumberingState where
  used : List String
  counter : Nat
deriving DecidableEq

/-- The `while True` loop of `generate_unique_receipt_number`: try synthetic
numbers `MIG-%06d` at successive counter values until one is unused; the
counter ends one past the value that produced the returned number.  The
fuel is `used.length + 1` at the call site, which is proved sufficient
(`freshMig_spec`); the out-of-fuel branch is unreachable. -/
def freshMigAux : Nat → List String → Nat → String × Nat
  | 0, _, counter => (migFormat counter, counter + 1)
  | fuel + 1, used, counter =>
    let new := migFormat counter
    if new ∈ used then freshMigAux fuel used (counter + 1)
    else (new, counter + 1)

/-- The synthetic-number search started with sufficient fuel. -/
def freshMig (used : List String) (counter : Nat) : String × Nat :=
  freshMigAux (used.length + 1) used counter

/-- `generate_unique_receipt_number`: keep the cleaned original number when
it is present, non-empty, not `'0'` and unused; otherwise assign the next
unused synthetic number.  Returns the number and the updated state (the
returned number is added to the used set in both branches). -/
def generate_unique_receipt_number (st : NumberingState)
    (legacy_receipt_no : Option String) : String × NumberingState :=
  match legacy_receipt_no with
  | some s =>
    let clean := pyStrip s
    if clean ≠ "" ∧ clean ≠ "0" ∧ clean ∉ st.used then
      (clean, ⟨clean :: st.used, st.counter⟩)
    else
      let fm := freshMig st.used st.counter
      (fm.1, ⟨fm.1 :: st.used, fm.2⟩)
  | none =>
    let fm := freshMig st.used st.counter
    (fm.1, ⟨fm.1 :: st.used, fm.2⟩)

/-- Render one in-memory fee event as an output ledger-event row
(the reconstruction-pass loop body at `transform_all_receipts`): the row id
is a fresh identifier, and the `receipt_id` link is the empty string for
initial charges and a fresh uuid — linked to no receipt row — otherwise. -/
def renderRecoEvent (eid : String) (e : FeeEvent) (fresh : Nat) :
    EventRec × Nat :=
  if e.is_initial_charge then
    (⟨fresh, e.event_type, eid, e.component, e.amount, e.running_balance,
      none, e.receipt.id⟩, fresh + 1)
  else
    (⟨fresh, e.event_type, eid, e.component, e.amount, e.running_balance,
      some (fresh + 1), e.receipt.id⟩, fresh + 2)

/-- Render a whole reconstructed event list, threading the fresh-id supply. -/
def renderRecoEvents (eid : String) : List FeeEvent → Nat → List EventRec × Nat
  | [], fresh => ([], fresh)
  | e :: rest, fresh =>
    let hd := renderRecoEvent eid e fresh
    let tl := renderRecoEvents eid rest hd.2
    (hd.1 :: tl.1, tl.2)

/-- The grouping loop of `transform_all_receipts`: enrollment ids of resolved
receipts, in first-occurrence order with duplicates dropped (Python dict
key order). -/
def enrollmentKeysAux (lk : Lookups) :
    List LegacyReceipt → List String → List String
  | [], _ => []
  | r :: rest, seen =>
    match find_enrollment_id lk r with
    | none => enrollmentKeysAux lk rest seen
    | some eid =>
      if eid ∈ seen then enrollmentKeysAux lk rest seen
      else eid :: enrollmentKeysAux lk rest (eid :: seen)

/-- Enrollment ids to process, as dict insertion order gives them. -/
def enrollmentKeys (lk : Lookups) (rs : List LegacyReceipt) : List String :=
  enrollmentKeysAux lk rs []

/-- The first receipt grouped under an enrollment id (`receipts[0]` of the
dict entry): the first receipt of the run that resolves to it. -/
def groupFirst (lk : Lookups) (rs : List LegacyReceipt) (eid : String) :
    Option LegacyReceipt :=
  rs.find? (fun r => find_enrollment_id lk r == some eid)

/-- The history-reconstruction pass of `transform_all_receipts`: for each
grouped enrollment, reconstruct the fee history of the first grouped
receipt's student and render its events. -/
def recoPass (lk : Lookups) (rs : List LegacyReceipt)
    (brs : List LegacyBalanceRecord) :
    List String → Nat → List EventRec × Nat
  | [], fresh => ([], fresh)
  | eid :: rest, fresh =>
    match groupFirst lk rs eid with
    | none => recoPass lk rs brs rest fresh
    | some r0 =>
      let evs := reconstruct_student_fee_history lk rs brs r0.student_id eid
      let recs := renderRecoEvents eid evs fresh
      let tail := recoPass lk rs brs rest recs.2
      (recs.1 ++ tail.1, tail.2)

/-- The per-component event/allocation loop of the per-receipt pass
(`for field in ['reg_fee', ...]` with `if amount > 0`): `running` is the
receipt-local `running_balance` accumulator started at `0` and decremented
by every emitted amount across components; the event row carries the raw
positive amount, the post-decrement accumulator, and a link to the receipt
row; one allocation row links the receipt, the event and the component. -/
def receiptComponentRows (r : LegacyReceipt) (eid : String) (rid : Nat)
    (cancelled : Bool) :
    List Component → Int → Nat → List EventRec × List AllocationRec × Nat
  | [], _, fresh => ([], [], fresh)
  | c :: cs, running, fresh =>
    let amount := paymentAmount r c
    if 0 < amount then
      let etype := if cancelled then EventType.PAYMENT_CANCELLED
                   else EventType.PAYMENT_RECEIVED
      let running1 := running - amount
      let ev : EventRec := ⟨fresh, etype, eid, c, amount, running1, some rid, r.id⟩
      let al : AllocationRec := ⟨fresh + 1, rid, fresh, c, amount, eid, r.id⟩
      let tail := receiptComponentRows r eid rid cancelled cs running1 (fresh + 2)
      (ev :: tail.1, al :: tail.2.1, tail.2.2)
    else
      receiptComponentRows r eid rid cancelled cs running fresh

/-- The balance-record loop of the per-receipt pass: one row per component
with a positive reconstructed charge or a positive payment, carrying
`charge = balance_after + paid`, `paid`, and `balance_after`. -/
def receiptBalanceRows (r : LegacyReceipt) (brs : List LegacyBalanceRecord)
    (eid : String) (rid : Nat) :
    List Component → Nat → List BalanceRec × Nat
  | [], fresh => ([], fresh)
  | c :: cs, fresh =>
    let amount_paid := paymentAmount r c
    let balance_after := balanceAfter brs r c
    let charge_amount := balance_after + amount_paid
    if 0 < charge_amount ∨ 0 < amount_paid then
      let row : BalanceRec :=
        ⟨fresh, rid, c, charge_amount, amount_paid, balance_after, r.id⟩
      let tail := receiptBalanceRows r brs eid rid cs (fresh + 1)
      (row :: tail.1, tail.2)
    else
      receiptBalanceRows r brs eid rid cs fresh

/-- The per-receipt emission pass of `transform_all_receipts`: every receipt
that resolves to an enrollment yields exactly one receipt row (any other
receipt is skipped), its per-component events and allocations, and its
balance rows; the numbering state and the fresh-id supply are threaded in
input order. -/
def perReceiptPass (lk : Lookups) (brs : List LegacyBalanceRecord) :
    List LegacyReceipt → NumberingState → Nat → Outputs × NumberingState × Nat
  | [], st, fresh => (⟨[], [], [], []⟩, st, fresh)
  | r :: rest, st, fresh =>
    match find_enrollment_id lk r with
    | none => perReceiptPass lk brs rest st fresh
    | some eid =>
      let total := calculate_total_amount r
      let status := if r.is_cancelled then RStatus.CANCELLED else RStatus.ACTIVE
      let rid := fresh
      let numbered := generate_unique_receipt_number st r.receipt_no
      let rrec : ReceiptRec := ⟨rid, numbered.1, eid, total, total, status, r.id⟩
      let comp := receiptComponentRows r eid rid r.is_cancelled componentOrder 0 (fresh + 1)
      let bal := receiptBalanceRows r brs eid rid componentOrder comp.2.2
      let tail := perReceiptPass lk brs rest numbered.2 bal.2
      (⟨rrec :: tail.1.receipts, comp.1 ++ tail.1.events,
        comp.2.1 ++ tail.1.allocations, bal.1 ++ tail.1.balances⟩,
       tail.2.1, tail.2.2)

/-- `transform_all_receipts`: the history-reconstruction pass over the
grouped enrollments followed by the per-receipt emission pass; the event
table holds the reconstruction-pass events followed by the per-receipt
events, matching the source's append order. -/
def transform_all_receipts (lk : Lookups) (rs : List LegacyReceipt)
    (brs : List LegacyBalanceRecord) : Outputs :=
  let reco := recoPass lk rs brs (enrollmentKeys lk rs) 0
  let per := perReceiptPass lk brs rs ⟨[], 1⟩ reco.2
  ⟨per.1.receipts, reco.1 ++ per.1.events, per.1.allocations, per.1.balances⟩

/-- A row of the externally produced enrollment table
(`student_enrollments_out.csv`). -/
structure EnrollRow where
  enrollment_code : String
  id : String
  student_id : String
  course_id : String
  session_id : String
deriving DecidableEq

/-- A row of the externally produced student table (`students_out.csv`);
`legacy_student_id` may be absent. -/
structure StudentRow where
  legacy_student_id : Option String
  id : String
deriving DecidableEq

/-- `load_mappings`: build the two lookup dicts.  A missing file
(`os.path.exists` false, modelled by `none`) is silently tolerated and
leaves the corresponding lookup empty. -/
def load_mappings (enrollFile : Option (List EnrollRow))
    (studentFile : Option (List StudentRow)) : Lookups :=
  let el := (enrollFile.getD []).foldl
    (fun m row => dictInsert m row.enrollment_code
      ⟨row.id, row.student_id, row.course_id, row.session_id⟩) []
  let sl := (studentFile.getD []).foldl
    (fun m row =>
      match row.legacy_student_id with
      | some sid => dictInsert m sid row.id
      | none => m) []
  ⟨el, sl⟩

/-- `load_legacy_data`: the legacy receipts file is required — its absence
raises `FileNotFoundError`; the balance-record file is optional and its
absence leaves the list empty. -/
def load_legacy_data (receiptsFile : Option (List LegacyReceipt))
    (balanceFile : Option (List LegacyBalanceRecord)) :
    Except String (List LegacyReceipt × List LegacyBalanceRecord) :=
  match receiptsFile with
  | none => Except.error "Legacy receipts file not found"
  | some rs => Except.ok (rs, balanceFile.getD [])

/-- `run_complete_transformation`: load the (optional) mapping files, load
the legacy data — aborting if the receipts file is missing — and run the
transformation; outputs exist only on the success path, mirroring the fact
that the source writes its output files after all loading succeeded. -/
def run_complete_transformation (enrollFile : Option (List EnrollRow))
    (studentFile : Option (List StudentRow))
    (receiptsFile : Option (List LegacyReceipt))
    (balanceFile : Option (List LegacyBalanceRecord)) :
    Except String Outputs :=
  let lk := load_mappings enrollFile studentFile
  match load_legacy_data receiptsFile balanceFile with
  | Except.error e => Except.error e
  | Except.ok loaded => Except.ok (transform_all_receipts lk loaded.1 loaded.2)

/-- A receipt on which some component has a positive payment amount — on the
first such receipt the source's `if not fee_events:` block fires. -/
def anyPositivePayment (r : LegacyReceipt) : Bool :=
  componentOrder.any (fun c => decide (0 < paymentAmount r c))

/-- The payment events of a receipt list in order, ignoring the charge
synthesis (used to state the decomposition of `reconstructHistory`). -/
def allPaymentEvents (brs : List LegacyBalanceRecord) :
    List LegacyReceipt → List FeeEvent
  | [] => []
  | r :: rest => paymentEvents r (balanceAfter brs r) ++ allPaymentEvents brs rest

/-- The subsequence of reconstructed events belonging to one component. -/
def componentEvents (c : Component) (evs : List FeeEvent) : List FeeEvent :=
  evs.filter (fun e => decide (e.component = c))

/-- Spec check: each event's stored running balance equals the previous
running balance plus the event's signed amount. -/
def feeChainOk : Int → List FeeEvent → Bool
  | _, [] => true
  | prev, e :: rest =>
    decide (e.running_balance = prev + e.amount) && feeChainOk e.running_balance rest

/-- Spec check for one (enrollment, component) event sequence: the first
event is a `CHARGE_CREATED` with a non-negative opening amount equal to its
running balance, and every later running balance is the previous one plus
the event's signed amount (the spec's running-balance invariant). -/
def ledgerPairConsistent : List FeeEvent → Bool
  | [] => true
  | e :: rest =>
    decide (e.event_type = EventType.CHARGE_CREATED) && decide (0 ≤ e.amount)
      && decide (e.running_balance = e.amount) && feeChainOk e.running_balance rest

/-- Chain-consistency of the legacy snapshots for one component: walking the
receipts in order with the running amount still owed, every receipt with a
positive payment on the component owes `payment + balance_after` before it
and `balance_after` after it. -/
def snapChainOk (brs : List LegacyBalanceRecord) (c : Component) :
    Int → List LegacyReceipt → Bool
  | _, [] => true
  | prev, r :: rest =>
    if 0 < paymentAmount r c then
      decide (prev = paymentAmount r c + balanceAfter brs r c)
        && snapChainOk brs c (balanceAfter brs r c) rest
    else snapChainOk brs c prev rest

/-- The claim's running-balance check on output ledger-event rows. -/
def recChainOk : Int → List EventRec → Bool
  | _, [] => true
  | prev, e :: rest =>
    decide (e.running_balance = prev + e.amount) && recChainOk e.running_balance rest

/-- The claim's per-(enrollment, component) consistency check on output
ledger-event rows. -/
def recPairConsistent : List EventRec → Bool
  | [] => true
  | e :: rest =>
    decide (e.event_type = EventType.CHARGE_CREATED) && decide (0 ≤ e.amount)
      && decide (e.running_balance = e.amount) && recChainOk e.running_balance rest

/-- The output ledger-event rows of one (enrollment, component) pair, in
emission order. -/
def recComponentEvents (eid : String) (c : Component) (evs : List EventRec) :
    List EventRec :=
  evs.filter (fun e => decide (e.enrollment_id = eid) && decide (e.fee_component = c))

theorem component_mem_order (c : Component) : c ∈ componentOrder := by
  cases c <;> simp [componentOrder]

theorem componentOrder_nodup : componentOrder.Nodup := by decide

theorem mem_paymentEvents {r : LegacyReceipt} {bal : Component → Int}
    {e : FeeEvent} (h : e ∈ paymentEvents r bal) :
    ∃ c, 0 < paymentAmount r c ∧
      e = ⟨r, c, .PAYMENT_RECEIVED, -(paymentAmount r c), bal c, false⟩ := by
  rw [paymentEvents, List.mem_filterMap] at h
  obtain ⟨c, -, hc⟩ := h
  rw [paymentEvent?] at hc
  by_cases hp : 0 < paymentAmount r c
  · rw [if_pos hp] at hc
    exact ⟨c, hp, (Option.some_inj.mp hc).symm⟩
  · rw [if_neg hp] at hc
    exact absurd hc (Option.noConfusion)

theorem mem_chargeEvents {r : LegacyReceipt} {bal : Component → Int}
    {e : FeeEvent} (h : e ∈ chargeEvents r bal) :
    ∃ c, 0 < paymentAmount r c ∧ 0 < bal c + paymentAmount r c ∧
      e = ⟨r, c, .CHARGE_CREATED, bal c + paymentAmount r c,
        bal c + paymentAmount r c, true⟩ := by
  rw [chargeEvents, List.mem_filterMap] at h
  obtain ⟨c, -, hc⟩ := h
  rw [chargeEvent?] at hc
  by_cases hp : 0 < paymentAmount r c
  · rw [if_pos hp] at hc
    by_cases hb : 0 < bal c + paymentAmount r c
    · rw [if_pos hb] at hc
      exact ⟨c, hp, hb, (Option.some_inj.mp hc).symm⟩
    · rw [if_neg hb] at hc
      exact absurd hc (Option.noConfusion)
  · rw [if_neg hp] at hc
    exact absurd hc (Option.noConfusion)

theorem paymentEvents_eq_nil_iff (r : LegacyReceipt) (bal : Component → Int) :
    paymentEvents r bal = [] ↔ anyPositivePayment r = false := by
  rw [paymentEvents, List.filterMap_eq_nil_iff, anyPositivePayment]
  constructor
  · intro h
    rw [List.any_eq_false]
    intro c hc
    have := h c hc
    rw [paymentEvent?] at this
    by_cases hp : 0 < paymentAmount r c
    · rw [if_pos hp] at this; exact absurd this (Option.noConfusion)
    · simpa using hp
  · intro h c hc
    rw [List.any_eq_false] at h
    have := h c hc
    rw [paymentEvent?, if_neg]
    simpa using this

theorem chargeEvents_eq_nil_of_inactive {r : LegacyReceipt}
    (bal : Component → Int) (h : anyPositivePayment r = false) :
    chargeEvents r bal = [] := by
  rw [chargeEvents, List.filterMap_eq_nil_iff]
  intro c hc
  rw [anyPositivePayment, List.any_eq_false] at h
  have := h c hc
  rw [chargeEvent?, if_neg]
  simpa using this

theorem reconstructAux_of_ne_nil (brs : List LegacyBalanceRecord) :
    ∀ (rs : List LegacyReceipt) (acc : List FeeEvent), acc ≠ [] →
      reconstructAux brs rs acc = acc ++ allPaymentEvents brs rs := by
  intro rs
  induction rs with
  | nil => intro acc _; simp [reconstructAux, allPaymentEvents]
  | cons r rest ih =>
    intro acc hacc
    rw [reconstructAux, if_neg hacc, ih _ (by simp [hacc]), allPaymentEvents]
    simp

theorem reconstructHistory_decomp (brs : List LegacyBalanceRecord) :
    ∀ (rs : List LegacyReceipt) (r0 : LegacyReceipt),
      rs.find? anyPositivePayment = some r0 →
      reconstructHistory brs rs =
        chargeEvents r0 (balanceAfter brs r0) ++ allPaymentEvents brs rs := by
  intro rs
  induction rs with
  | nil => intro r0 h; simp [List.find?] at h
  | cons r rest ih =>
    intro r0 h
    by_cases hr : anyPositivePayment r = true
    · rw [List.find?_cons_of_pos _ hr] at h
      have hr0 : r0 = r := (Option.some_inj.mp h).symm
      subst hr0
      have hpay : paymentEvents r0 (balanceAfter brs r0) ≠ [] := by
        intro hnil
        rw [paymentEvents_eq_nil_iff] at hnil
        rw [hnil] at hr
        exact Bool.noConfusion hr
      rw [reconstructHistory, reconstructAux, if_pos rfl]
      rw [reconstructAux_of_ne_nil brs rest _
        (fun hnil => hpay (List.append_eq_nil.mp hnil).2)]
      rw [allPaymentEvents]
      simp
    · have hr' : anyPositivePayment r = false := by
        revert hr; cases anyPositivePayment r <;> simp
      rw [List.find?_cons_of_neg _ (by simp [hr'])] at h
      have := ih r0 h
      rw [reconstructHistory, reconstructAux, if_pos rfl,
        chargeEvents_eq_nil_of_inactive _ hr',
        (paymentEvents_eq_nil_iff r (balanceAfter brs r)).mpr hr']
      rw [reconstructHistory] at this
      rw [allPaymentEvents,
        (paymentEvents_eq_nil_iff r (balanceAfter brs r)).mpr hr']
      simpa using this

theorem reconstructHistory_of_no_active (brs : List LegacyBalanceRecord) :
    ∀ (rs : List LegacyReceipt), rs.find? anyPositivePayment = none →
      reconstructHistory brs rs = [] := by
  intro rs
  induction rs with
  | nil => intro _; rfl
  | cons r rest ih =>
    intro h
    rw [List.find?_cons] at h
    revert h
    split
    · intro h; exact Option.noConfusion h
    · intro h
      rename_i hr
      have hr' : anyPositivePayment r = false := by
        revert hr; cases anyPositivePayment r <;> simp
      rw [reconstructHistory, reconstructAux, if_pos rfl,
        chargeEvents_eq_nil_of_inactive _ hr',
        (paymentEvents_eq_nil_iff r (balanceAfter brs r)).mpr hr']
      simpa [reconstructHistory] using ih h

theorem filter_filterMap_not_mem (f : Component → Option FeeEvent)
    (hf : ∀ c' e, f c' = some e → e.component = c') (c : Component) :
    ∀ l : List Component, c ∉ l →
      (l.filterMap f).filter (fun e => decide (e.component = c)) = [] := by
  intro l
  induction l with
  | nil => intro _; rfl
  | cons a l ih =>
    intro hc
    rw [List.filterMap_cons]
    have hac : a ≠ c := fun h => hc (h ▸ List.mem_cons_self a l)
    have hl : c ∉ l := fun h => hc (List.mem_cons_of_mem a h)
    cases hfa : f a with
    | none => exact ih hl
    | some e =>
      rw [List.filter_cons]
      have : e.component = a := hf a e hfa
      rw [if_neg (by simp [this, hac])]
      exact ih hl

theorem filter_filterMap_mem (f : Component → Option FeeEvent)
    (hf : ∀ c' e, f c' = some e → e.component = c') (c : Component) :
    ∀ l : List Component, l.Nodup → c ∈ l →
      (l.filterMap f).filter (fun e => decide (e.component = c)) = (f c).toList := by
  intro l
  induction l with
  | nil => intro _ hc; exact absurd hc (List.not_mem_nil c)
  | cons a l ih =>
    intro hnd hc
    rcases List.mem_cons.mp hc with hac | hcl
    · subst hac
      have hnl : c ∉ l := (List.nodup_cons.mp hnd).1
      cases hfa : f c with
      | none =>
        simp only [List.filterMap_cons, hfa, Option.toList_none]
        exact filter_filterMap_not_mem f hf c l hnl
      | some e =>
        simp only [List.filterMap_cons, hfa, Option.toList_some]
        rw [List.filter_cons, if_pos (by simp [hf c e hfa])]
        rw [filter_filterMap_not_mem f hf c l hnl]
    · have hac : a ≠ c := by
        intro h
        subst h
        exact (List.nodup_cons.mp hnd).1 hcl
      cases hfa : f a with
      | none =>
        simp only [List.filterMap_cons, hfa]
        exact ih (List.nodup_cons.mp hnd).2 hcl
      | some e =>
        simp only [List.filterMap_cons, hfa]
        rw [List.filter_cons, if_neg (by simp [hf a e hfa, hac])]
        exact ih (List.nodup_cons.mp hnd).2 hcl

theorem componentEvents_chargeEvents (r : LegacyReceipt)
    (bal : Component → Int) (c : Component) :
    componentEvents c (chargeEvents r bal) = (chargeEvent? r bal c).toList := by
  rw [componentEvents, chargeEvents]
  refine filter_filterMap_mem _ ?_ c componentOrder componentOrder_nodup
    (component_mem_order c)
  intro c' e he
  rw [chargeEvent?] at he
  by_cases hp : 0 < paymentAmount r c'
  · rw [if_pos hp] at he
    by_cases hb : 0 < bal c' + paymentAmount r c'
    · rw [if_pos hb] at he
      cases Option.some_inj.mp he
      rfl
    · rw [if_neg hb] at he; exact absurd he (Option.noConfusion)
  · rw [if_neg hp] at he; exact absurd he (Option.noConfusion)

theorem componentEvents_paymentEvents (r : LegacyReceipt)
    (bal : Component → Int) (c : Component) :
    componentEvents c (paymentEvents r bal) = (paymentEvent? r bal c).toList := by
  rw [componentEvents, paymentEvents]
  refine filter_filterMap_mem _ ?_ c componentOrder componentOrder_nodup
    (component_mem_order c)
  intro c' e he
  rw [paymentEvent?] at he
  by_cases hp : 0 < paymentAmount r c'
  · rw [if_pos hp] at he
    cases Option.some_inj.mp he
    rfl
  · rw [if_neg hp] at he; exact absurd he (Option.noConfusion)

theorem componentEvents_append (c : Component) (l l' : List FeeEvent) :
    componentEvents c (l ++ l') = componentEvents c l ++ componentEvents c l' := by
  rw [componentEvents, componentEvents, componentEvents, List.filter_append]

theorem feeChainOk_allPayments (brs : List LegacyBalanceRecord) (c : Component) :
    ∀ (rs : List LegacyReceipt) (prev : Int),
      snapChainOk brs c prev rs = true →
      feeChainOk prev (componentEvents c (allPaymentEvents brs rs)) = true := by
  intro rs
  induction rs with
  | nil => intro prev _; rfl
  | cons r rest ih =>
    intro prev hchain
    rw [allPaymentEvents, componentEvents_append, componentEvents_paymentEvents]
    rw [snapChainOk] at hchain
    by_cases hp : 0 < paymentAmount r c
    · rw [if_pos hp] at hchain
      have h1 : prev = paymentAmount r c + balanceAfter brs r c := by
        have := (Bool.and_eq_true _ _).mp hchain
        exact of_decide_eq_true this.1
      have h2 := ((Bool.and_eq_true _ _).mp hchain).2
      rw [paymentEvent?, if_pos hp]
      simp only [Option.toList_some, List.cons_append, List.nil_append, feeChainOk]
      refine (Bool.and_eq_true _ _).mpr ⟨decide_eq_true ?_, ih _ h2⟩
      show balanceAfter brs r c = prev + -paymentAmount r c
      omega
    · rw [if_neg hp] at hchain
      rw [paymentEvent?, if_neg hp]
      simp only [Option.toList_none, List.nil_append]
      exact ih prev hchain

theorem mem_allPaymentEvents {brs : List LegacyBalanceRecord} {e : FeeEvent} :
    ∀ rs : List LegacyReceipt, e ∈ allPaymentEvents brs rs →
      ∃ r ∈ rs, ∃ c, 0 < paymentAmount r c ∧
        e = ⟨r, c, .PAYMENT_RECEIVED, -(paymentAmount r c),
          balanceAfter brs r c, false⟩ := by
  intro rs
  induction rs with
  | nil => intro h; exact absurd h (List.not_mem_nil e)
  | cons r rest ih =>
    intro h
    rw [allPaymentEvents] at h
    rcases List.mem_append.mp h with h1 | h2
    · obtain ⟨c, hc, he⟩ := mem_paymentEvents h1
      exact ⟨r, List.mem_cons_self r rest, c, hc, he⟩
    · obtain ⟨r', hr', c, hc, he⟩ := ih h2
      exact ⟨r', List.mem_cons_of_mem r hr', c, hc, he⟩

/-- Shared concrete run used by several counterexamples: one enrollment
"E1" mapping to enrollment id "EN1", one receipt paying 10 against the
registration fee, with a legacy snapshot recording balance 0 after it. -/
def cexLk : Lookups := ⟨[("E1", ⟨"EN1", "SU1", "CO1", "SE1"⟩)], []⟩

/-- The single legacy receipt of the shared counterexample run. -/
def cexRcpt : LegacyReceipt := ⟨1, "A", "E1", 1, some 10, none, none, none, false, none⟩

/-- The legacy snapshot of the shared counterexample run: registration
balance 0 after receipt 1 (a perfectly consistent legacy history). -/
def cexBrs : List LegacyBalanceRecord := [⟨1, some 0, none, none, none⟩]

/-- C1, counterexample: even on a perfectly consistent one-receipt legacy
history, the emitted ledger-event table is not internally consistent for
(enrollment "EN1", component reg): the reconstruction pass emits
CHARGE_CREATED(+10, rb 10) and PAYMENT_RECEIVED(−10, rb 0), but the
per-receipt pass emits a second PAYMENT_RECEIVED with positive amount +10
and running balance −10, which does not equal 0 + 10. -/
theorem c1_counterexample :
    recPairConsistent (recComponentEvents "EN1" Component.reg
      (transform_all_receipts cexLk [cexRcpt] cexBrs).events) = false := by
  decide

/-- C1 (amended): restricted to the events produced by the
history-reconstruction step for one enrollment, and for a component whose
payment on the first event-producing receipt is positive, whose snapshot
balance there is non-negative, and whose legacy snapshots are
chain-consistent, the per-component event sequence is internally
consistent: it starts with a CHARGE_CREATED whose non-negative amount
equals its running balance, and every later running balance is the
previous one plus the event's signed amount. -/
theorem c1_running_balance_consistency_amended
    (brs : List LegacyBalanceRecord) (rs : List LegacyReceipt) (c : Component)
    (r0 : LegacyReceipt)
    (hfind : rs.find? anyPositivePayment = some r0)
    (hp : 0 < paymentAmount r0 c)
    (hb : 0 ≤ balanceAfter brs r0 c)
    (hchain : snapChainOk brs c
      (balanceAfter brs r0 c + paymentAmount r0 c) rs = true) :
    ledgerPairConsistent (componentEvents c (reconstructHistory brs rs)) = true := by
  have hb' : (0 : Int) < balanceAfter brs r0 c + paymentAmount r0 c := by omega
  have hcharge : chargeEvent? r0 (balanceAfter brs r0) c =
      some ⟨r0, c, .CHARGE_CREATED, balanceAfter brs r0 c + paymentAmount r0 c,
        balanceAfter brs r0 c + paymentAmount r0 c, true⟩ := by
    simp only [chargeEvent?]
    rw [if_pos hp, if_pos hb']
  rw [reconstructHistory_decomp brs rs r0 hfind, componentEvents_append,
    componentEvents_chargeEvents, hcharge, Option.toList_some, List.cons_append,
    List.nil_append, ledgerPairConsistent]
  simp only [Bool.and_eq_true, decide_eq_true_eq]
  exact ⟨⟨⟨trivial, by omega⟩, trivial⟩, feeChainOk_allPayments brs c rs _ hchain⟩

/-- C1, witness for the amended theorem: the one-receipt run satisfies the
hypotheses, and its reconstruction-pass event sequence for the
registration component is consistent. -/
theorem c1_witness :
    ([cexRcpt].find? anyPositivePayment = some cexRcpt
      ∧ 0 < paymentAmount cexRcpt Component.reg
      ∧ 0 ≤ balanceAfter cexBrs cexRcpt Component.reg
      ∧ snapChainOk cexBrs Component.reg
          (balanceAfter cexBrs cexRcpt Component.reg
            + paymentAmount cexRcpt Component.reg) [cexRcpt] = true)
    ∧ ledgerPairConsistent (componentEvents Component.reg
        (reconstructHistory cexBrs [cexRcpt])) = true :=
  ⟨⟨by decide, by decide, by decide, by decide⟩,
    c1_running_balance_consistency_amended cexBrs [cexRcpt] Component.reg cexRcpt
      (by decide) (by decide) (by decide) (by decide)⟩

/-- The condition under which the code emits an opening charge for a
component: the run's first receipt with any positive payment must itself
carry a positive payment for this component, with positive reconstructed
balance-before. -/
def openingChargeCond (brs : List LegacyBalanceRecord)
    (rs : List LegacyReceipt) (c : Component) : Bool :=
  match rs.find? anyPositivePayment with
  | none => false
  | some r0 =>
    decide (0 < paymentAmount r0 c)
      && decide (0 < balanceAfter brs r0 c + paymentAmount r0 c)

/-- The claim's "component's first chronological receipt": the first receipt
of the (date-ordered) list with a positive payment on the component. -/
def firstReceiptWithPayment (c : Component) (rs : List LegacyReceipt) :
    Option LegacyReceipt :=
  rs.find? (fun r => decide (0 < paymentAmount r c))

/-- Receipts of the C2 counterexample: receipt 1 (date 1) pays only the
registration fee, receipt 2 (date 2) pays only the tuition fee. -/
def c2rA : LegacyReceipt := ⟨1, "A", "E1", 1, some 10, none, none, none, false, none⟩

/-- Second receipt of the C2 counterexample (first tuition payment). -/
def c2rB : LegacyReceipt := ⟨2, "A", "E1", 2, none, none, some 10, none, false, none⟩

/-- Snapshot for the C2 counterexample: tuition balance 5 after receipt 2,
so the tuition balance-before at its first tuition receipt is 15. -/
def c2brs : List LegacyBalanceRecord := [⟨2, none, none, some 5, none⟩]

/-- C2, counterexample: the tuition component's first chronological receipt
is receipt 2, with `balance_after + payment = 15 > 0`, yet the
reconstruction emits no CHARGE_CREATED event at all for tuition — the code
only synthesises charges for components paid on the run's first
event-producing receipt (receipt 1, which pays registration only). -/
theorem c2_counterexample :
    firstReceiptWithPayment Component.tut [c2rA, c2rB] = some c2rB
    ∧ 0 < balanceAfter c2brs c2rB Component.tut + paymentAmount c2rB Component.tut
    ∧ (componentEvents Component.tut (reconstructHistory c2brs [c2rA, c2rB])).all
        (fun e => decide (e.event_type ≠ EventType.CHARGE_CREATED)) = true := by
  refine ⟨by decide, by decide, by decide⟩

/-- C2 (amended): the opening-charge condition is evaluated at the run's
first receipt with any positive payment (not at the component's own first
receipt): if that receipt pays this component positively and
`balance_after + payment > 0` there, the first event of the pair is a
CHARGE_CREATED with exactly that amount and running balance; under any
other circumstances no CHARGE_CREATED event exists for the pair. -/
theorem c2_opening_charge_amended (brs : List LegacyBalanceRecord)
    (rs : List LegacyReceipt) (c : Component) :
    (∀ r0, rs.find? anyPositivePayment = some r0 →
      0 < paymentAmount r0 c →
      0 < balanceAfter brs r0 c + paymentAmount r0 c →
      (componentEvents c (reconstructHistory brs rs)).head? =
        some ⟨r0, c, .CHARGE_CREATED,
          balanceAfter brs r0 c + paymentAmount r0 c,
          balanceAfter brs r0 c + paymentAmount r0 c, true⟩)
    ∧ (openingChargeCond brs rs c = false →
      ∀ e ∈ reconstructHistory brs rs, e.component = c →
        e.event_type ≠ EventType.CHARGE_CREATED) := by
  constructor
  · intro r0 hfind hp hb
    have hcharge : chargeEvent? r0 (balanceAfter brs r0) c =
        some ⟨r0, c, .CHARGE_CREATED, balanceAfter brs r0 c + paymentAmount r0 c,
          balanceAfter brs r0 c + paymentAmount r0 c, true⟩ := by
      simp only [chargeEvent?]
      rw [if_pos hp, if_pos hb]
    rw [reconstructHistory_decomp brs rs r0 hfind, componentEvents_append,
      componentEvents_chargeEvents, hcharge, Option.toList_some,
      List.cons_append, List.head?_cons]
  · intro hcond e he hec
    cases hfind : rs.find? anyPositivePayment with
    | none =>
      rw [reconstructHistory_of_no_active brs rs hfind] at he
      exact absurd he (List.not_mem_nil e)
    | some r0 =>
      rw [openingChargeCond, hfind] at hcond
      rw [reconstructHistory_decomp brs rs r0 hfind] at he
      rcases List.mem_append.mp he with h1 | h2
      · obtain ⟨c', hp', hb', he'⟩ := mem_chargeEvents h1
        have hcc : c' = c := by rw [he'] at hec; exact hec
        subst hcc
        rw [Bool.and_eq_false_iff] at hcond
        rcases hcond with h | h
        · rw [decide_eq_false_iff_not] at h; exact absurd hp' h
        · rw [decide_eq_false_iff_not] at h; exact absurd hb' h
      · obtain ⟨r', -, c', -, he'⟩ := mem_allPaymentEvents rs h2
        intro het
        rw [he'] at het
        exact EventType.noConfusion het

/-- C2, witness for the amended theorem: on the shared one-receipt run the
opening charge for registration is the first event of the pair, and on the
C2 receipts the tuition pair has no charge event. -/
theorem c2_witness :
    (componentEvents Component.reg (reconstructHistory cexBrs [cexRcpt])).head? =
      some ⟨cexRcpt, Component.reg, .CHARGE_CREATED, 10, 10, true⟩ :=
  have h := (c2_opening_charge_amended cexBrs [cexRcpt] Component.reg).1
    cexRcpt (by decide) (by decide) (by decide)
  h

theorem filter_allPayments_eq (brs : List LegacyBalanceRecord)
    (r : LegacyReceipt) (c : Component) (hp : 0 < paymentAmount r c) :
    ∀ rs : List LegacyReceipt, (rs.map LegacyReceipt.id).Nodup → r ∈ rs →
      (allPaymentEvents brs rs).filter (fun e =>
          decide (e.receipt.id = r.id) && decide (e.component = c)
            && decide (e.is_initial_charge = false))
        = [⟨r, c, .PAYMENT_RECEIVED, -(paymentAmount r c),
            balanceAfter brs r c, false⟩] := by
  intro rs
  induction rs with
  | nil => intro _ hr; exact absurd hr (List.not_mem_nil r)
  | cons r' rest ih =>
    intro hnd hr
    rw [List.map_cons, List.nodup_cons] at hnd
    rw [allPaymentEvents, List.filter_append]
    rcases List.mem_cons.mp hr with hrr | hrest
    · subst hrr
      have hcong : (paymentEvents r (balanceAfter brs r)).filter (fun e =>
          decide (e.receipt.id = r.id) && decide (e.component = c)
            && decide (e.is_initial_charge = false))
          = componentEvents c (paymentEvents r (balanceAfter brs r)) := by
        rw [componentEvents]
        refine List.filter_congr ?_
        intro e he
        obtain ⟨c', -, he'⟩ := mem_paymentEvents he
        rw [he']
        simp
      have hrest0 : (allPaymentEvents brs rest).filter (fun e =>
          decide (e.receipt.id = r.id) && decide (e.component = c)
            && decide (e.is_initial_charge = false)) = [] := by
        rw [List.filter_eq_nil_iff]
        intro e he
        obtain ⟨rr, hrr', c', -, he'⟩ := mem_allPaymentEvents rest he
        have : rr.id ≠ r.id := by
          intro hid
          exact hnd.1 (hid ▸ List.mem_map_of_mem LegacyReceipt.id hrr')
        rw [he']
        simp [this]
      rw [hcong, hrest0, componentEvents_paymentEvents, paymentEvent?, if_pos hp]
      rfl
    · have hne : r'.id ≠ r.id := by
        intro hid
        exact hnd.1 (hid ▸ List.mem_map_of_mem LegacyReceipt.id hrest)
      have hh : (paymentEvents r' (balanceAfter brs r')).filter (fun e =>
          decide (e.receipt.id = r.id) && decide (e.component = c)
            && decide (e.is_initial_charge = false)) = [] := by
        rw [List.filter_eq_nil_iff]
        intro e he
        obtain ⟨c', -, he'⟩ := mem_paymentEvents he
        rw [he']
        simp [hne]
      rw [hh, List.nil_append]
      exact ih hnd.2 hrest

/-- C3, counterexample: in the shared run, the resolved receipt pays 10 on
the registration component and the legacy snapshot records balance 0 after
it, yet the emitted ledger-event table contains a PAYMENT_RECEIVED event
for this (receipt, component) with signed amount +10 (not −10) and
running balance −10 (not the snapshot value 0): the per-receipt pass. -/
theorem c3_counterexample :
    paymentAmount cexRcpt Component.reg = 10
    ∧ balanceAfter cexBrs cexRcpt Component.reg = 0
    ∧ ((transform_all_receipts cexLk [cexRcpt] cexBrs).events.any (fun e =>
        decide (e.legacy_receipt_id = cexRcpt.id)
          && decide (e.fee_component = Component.reg)
          && decide (e.event_type = EventType.PAYMENT_RECEIVED)
          && decide (e.amount = 10) && decide (e.running_balance = -10))) = true :=
  ⟨by decide, by decide, by decide⟩

/-- C3 (amended): restricted to the history-reconstruction pass, the claim
holds: for a receipt of the run and a component with positive payment, the
pass emits exactly one non-charge event for that (receipt, component) — a
PAYMENT_RECEIVED with signed amount −payment and running balance copied
from the legacy balance-after snapshot, which reads as 0 when the snapshot
row is absent.  The duplicate event emitted by the per-receipt pass
instead carries the raw positive amount and a receipt-local accumulator
(see the counterexample). -/
theorem c3_payment_event_amended (brs : List LegacyBalanceRecord)
    (rs : List LegacyReceipt) (r : LegacyReceipt) (c : Component)
    (hnodup : (rs.map LegacyReceipt.id).Nodup)
    (hr : r ∈ rs) (hp : 0 < paymentAmount r c) :
    (reconstructHistory brs rs).filter (fun e =>
        decide (e.receipt.id = r.id) && decide (e.component = c)
          && decide (e.is_initial_charge = false))
      = [⟨r, c, .PAYMENT_RECEIVED, -(paymentAmount r c),
          balanceAfter brs r c, false⟩]
    ∧ (find_balance_record brs r.id = none → balanceAfter brs r c = 0) := by
  constructor
  · have hsome : (rs.find? anyPositivePayment).isSome := by
      rw [List.find?_isSome]
      refine ⟨r, hr, ?_⟩
      rw [anyPositivePayment, List.any_eq_true]
      exact ⟨c, component_mem_order c, decide_eq_true hp⟩
    obtain ⟨r0, hfind⟩ := Option.isSome_iff_exists.mp hsome
    rw [reconstructHistory_decomp brs rs r0 hfind, List.filter_append]
    have hch : (chargeEvents r0 (balanceAfter brs r0)).filter (fun e =>
        decide (e.receipt.id = r.id) && decide (e.component = c)
          && decide (e.is_initial_charge = false)) = [] := by
      rw [List.filter_eq_nil_iff]
      intro e he
      obtain ⟨c', -, -, he'⟩ := mem_chargeEvents he
      rw [he']
      simp
    rw [hch, List.nil_append]
    exact filter_allPayments_eq brs r c hp rs hnodup hr
  · intro hnone
    rw [balanceAfter, hnone]

/-- C3, witness for the amended theorem at the shared run: the single
non-charge event of the pair is PAYMENT_RECEIVED(−10) with running
balance 0 copied from the snapshot. -/
theorem c3_witness :
    (reconstructHistory cexBrs [cexRcpt]).filter (fun e =>
        decide (e.receipt.id = cexRcpt.id) && decide (e.component = Component.reg)
          && decide (e.is_initial_charge = false))
      = [⟨cexRcpt, Component.reg, .PAYMENT_RECEIVED,
          -(paymentAmount cexRcpt Component.reg),
          balanceAfter cexBrs cexRcpt Component.reg, false⟩] :=
  (c3_payment_event_amended cexBrs [cexRcpt] cexRcpt Component.reg
    (by decide) (by decide) (by decide)).1

theorem receiptComponentRows_events_mem (r : LegacyReceipt) (eid : String)
    (rid : Nat) (cancelled : Bool) :
    ∀ (cs : List Component) (running : Int) (fresh : Nat), running ≤ 0 →
      ∀ e ∈ (receiptComponentRows r eid rid cancelled cs running fresh).1,
        e.legacy_receipt_id = r.id ∧ e.enrollment_id = eid
          ∧ e.receipt_id = some rid
          ∧ e.event_type = (if cancelled then EventType.PAYMENT_CANCELLED
              else EventType.PAYMENT_RECEIVED)
          ∧ 0 < e.amount ∧ e.running_balance < 0 := by
  intro cs
  induction cs with
  | nil => intro running fresh _ e he; exact absurd he (List.not_mem_nil e)
  | cons c cs ih =>
    intro running fresh hrun e he
    rw [receiptComponentRows] at he
    by_cases hp : 0 < paymentAmount r c
    · rw [if_pos hp] at he
      rcases List.mem_cons.mp he with hee | hee
      · subst hee
        refine ⟨rfl, rfl, rfl, rfl, hp, ?_⟩
        show running - paymentAmount r c < 0
        omega
      · exact ih (running - paymentAmount r c) (fresh + 2) (by omega) e hee
    · rw [if_neg hp] at he
      exact ih running fresh hrun e he

theorem perReceiptPass_events_mem (lk : Lookups) (brs : List LegacyBalanceRecord) :
    ∀ (rs : List LegacyReceipt) (st : NumberingState) (fresh : Nat),
      ∀ e ∈ (perReceiptPass lk brs rs st fresh).1.events,
        ∃ r ∈ rs, ∃ eid, find_enrollment_id lk r = some eid
          ∧ e.legacy_receipt_id = r.id ∧ e.enrollment_id = eid
          ∧ e.event_type = (if r.is_cancelled then EventType.PAYMENT_CANCELLED
              else EventType.PAYMENT_RECEIVED)
          ∧ 0 < e.amount ∧ e.running_balance < 0 := by
  intro rs
  induction rs with
  | nil => intro st fresh e he; exact absurd he (List.not_mem_nil e)
  | cons r rest ih =>
    intro st fresh e he
    rw [perReceiptPass] at he
    cases heid : find_enrollment_id lk r with
    | none =>
      rw [heid] at he
      obtain ⟨r', hr', rest'⟩ := ih st fresh e he
      exact ⟨r', List.mem_cons_of_mem r hr', rest'⟩
    | some eid =>
      rw [heid] at he
      rcases List.mem_append.mp he with h1 | h2
      · obtain ⟨h1', h2', h3', h4', h5', h6'⟩ :=
          receiptComponentRows_events_mem r eid fresh r.is_cancelled
            componentOrder 0 (fresh + 1) le_rfl e h1
        exact ⟨r, List.mem_cons_self r rest, eid, heid, h1', h2', h4', h5', h6'⟩
      · obtain ⟨r', hr', rest'⟩ := ih _ _ e h2
        exact ⟨r', List.mem_cons_of_mem r hr', rest'⟩

/-- The cancelled variant of the shared counterexample receipt. -/
def cexRcptC : LegacyReceipt := ⟨1, "A", "E1", 1, some 10, none, none, none, true, none⟩

/-- Snapshot for the C4 counterexample: registration balance 5 after the
cancelled receipt. -/
def c4brs : List LegacyBalanceRecord := [⟨1, some 5, none, none, none⟩]

/-- C4, counterexample: for the resolved cancelled receipt the event table
contains a payment event with type PAYMENT_RECEIVED (the reconstruction
pass ignores the cancellation flag), and the PAYMENT_CANCELLED event that
is emitted carries running balance −10, not the legacy snapshot value 5. -/
theorem c4_counterexample :
    cexRcptC.is_cancelled = true
    ∧ balanceAfter c4brs cexRcptC Component.reg = 5
    ∧ ((transform_all_receipts cexLk [cexRcptC] c4brs).events.any (fun e =>
        decide (e.legacy_receipt_id = cexRcptC.id)
          && decide (e.event_type = EventType.PAYMENT_RECEIVED))) = true
    ∧ ((transform_all_receipts cexLk [cexRcptC] c4brs).events.any (fun e =>
        decide (e.legacy_receipt_id = cexRcptC.id)
          && decide (e.event_type = EventType.PAYMENT_CANCELLED)
          && decide (e.running_balance = -10))) = true :=
  ⟨by decide, by decide, by decide, by decide⟩

/-- C4 (amended): for a resolved receipt whose cancellation flag is set,
every payment event emitted for it by the per-receipt emission pass has
event type PAYMENT_CANCELLED, a positive (unsigned) amount, and a strictly
negative running balance — the receipt-local negated running total, not
the legacy balance-after snapshot.  (The history-reconstruction pass, by
contrast, keeps PAYMENT_RECEIVED for cancelled receipts; see the
counterexample.) -/
theorem c4_cancelled_receipt_amended (lk : Lookups)
    (brs : List LegacyBalanceRecord) (rs : List LegacyReceipt)
    (r : LegacyReceipt) (st : NumberingState) (fresh : Nat)
    (hnodup : (rs.map LegacyReceipt.id).Nodup)
    (hr : r ∈ rs) (hcanc : r.is_cancelled = true)
    (e : EventRec) (he : e ∈ (perReceiptPass lk brs rs st fresh).1.events)
    (hid : e.legacy_receipt_id = r.id) :
    e.event_type = EventType.PAYMENT_CANCELLED
      ∧ 0 < e.amount ∧ e.running_balance < 0 := by
  obtain ⟨r', hr', eid, -, hid', -, htype, hamt, hrb⟩ :=
    perReceiptPass_events_mem lk brs rs st fresh e he
  have : r' = r :=
    List.inj_on_of_nodup_map hnodup hr' hr (by rw [← hid', hid])
  subst this
  rw [hcanc] at htype
  exact ⟨by rw [htype]; rfl, hamt, hrb⟩

/-- C4, witness: the PAYMENT_CANCELLED event the per-receipt pass emits for
the cancelled receipt of the counterexample run indeed has positive amount
and negative running balance. -/
theorem c4_witness :
    (⟨4, EventType.PAYMENT_CANCELLED, "EN1", Component.reg, 10, -10, some 3, 1⟩
        : EventRec).event_type = EventType.PAYMENT_CANCELLED
      ∧ 0 < (⟨4, EventType.PAYMENT_CANCELLED, "EN1", Component.reg, 10, -10, some 3, 1⟩
        : EventRec).amount
      ∧ (⟨4, EventType.PAYMENT_CANCELLED, "EN1", Component.reg, 10, -10, some 3, 1⟩
        : EventRec).running_balance < 0 :=
  c4_cancelled_receipt_amended cexLk c4brs [cexRcptC] cexRcptC ⟨[], 1⟩ 3
    (by decide) (by decide) (by decide) _ (by decide) (by decide)


/-- Little-endian value of a decimal digit list (used only to invert
`decDigits`). -/
def ofDecDigits : List Nat → Nat
  | [] => 0
  | d :: ds => d + 10 * ofDecDigits ds

theorem decDigitsAux_zero : ∀ fuel, decDigitsAux fuel 0 = [] := by
  intro fuel
  cases fuel with
  | zero => rfl
  | succ f => rw [decDigitsAux, if_pos rfl]

theorem ofDecDigits_decDigitsAux :
    ∀ fuel n, n ≤ fuel → ofDecDigits (decDigitsAux fuel n) = n := by
  intro fuel
  induction fuel with
  | zero =>
    intro n hn
    have : n = 0 := by omega
    subst this
    rfl
  | succ fuel ih =>
    intro n hn
    by_cases hz : n = 0
    · subst hz; rfl
    · rw [decDigitsAux, if_neg hz, ofDecDigits, ih (n / 10) (by omega)]
      omega

theorem decDigits_inj {m n : Nat} (h : decDigits m = decDigits n) : m = n := by
  have hm := ofDecDigits_decDigitsAux m m le_rfl
  have hn := ofDecDigits_decDigitsAux n n le_rfl
  rw [decDigits, decDigits] at h
  rw [← hm, ← hn, h]

theorem decDigitsAux_lt_ten :
    ∀ fuel n d, d ∈ decDigitsAux fuel n → d < 10 := by
  intro fuel
  induction fuel with
  | zero => intro n d h; exact absurd h (List.not_mem_nil d)
  | succ fuel ih =>
    intro n d h
    by_cases hz : n = 0
    · subst hz
      rw [decDigitsAux_zero] at h
      exact absurd h (List.not_mem_nil d)
    · rw [decDigitsAux, if_neg hz] at h
      rcases List.mem_cons.mp h with h | h
      · subst h; exact Nat.mod_lt _ (by omega)
      · exact ih _ _ h

theorem decDigitsAux_ne_nil :
    ∀ fuel n, 1 ≤ n → n ≤ fuel → decDigitsAux fuel n ≠ [] := by
  intro fuel n h1 h2
  cases fuel with
  | zero => exact absurd h2 (by omega)
  | succ f =>
    rw [decDigitsAux, if_neg (by omega)]
    exact List.cons_ne_nil _ _

theorem decDigitsAux_getLast?_ne_zero :
    ∀ fuel n, 1 ≤ n → n ≤ fuel → (decDigitsAux fuel n).getLast? ≠ some 0 := by
  intro fuel
  induction fuel with
  | zero => intro n h1 h2; exact absurd h2 (by omega)
  | succ fuel ih =>
    intro n h1 h2
    rw [decDigitsAux, if_neg (by omega)]
    by_cases h10 : n / 10 = 0
    · rw [h10, decDigitsAux_zero]
      intro hh
      have heq : n % 10 = 0 := by simpa using hh
      omega
    · have h1' : 1 ≤ n / 10 := Nat.pos_of_ne_zero h10
      have h2' : n / 10 ≤ fuel := by omega
      obtain ⟨t, ts, hts⟩ :=
        List.exists_cons_of_ne_nil (decDigitsAux_ne_nil fuel _ h1' h2')
      rw [hts, List.getLast?_cons_cons, ← hts]
      exact ih _ h1' h2'

theorem decChars_ne_nil {n : Nat} (h : 1 ≤ n) : decChars n ≠ [] := by
  rw [decChars]
  intro hh
  rw [List.map_eq_nil_iff, List.reverse_eq_nil_iff] at hh
  exact decDigitsAux_ne_nil n n h le_rfl hh

theorem digitChar_ne_zero_char (d : Nat) (h1 : d < 10) (h2 : d ≠ 0) :
    Nat.digitChar d ≠ '0' := by
  interval_cases d
  · exact absurd rfl h2
  all_goals decide

theorem digitChar_inj_lt (a b : Nat) (ha : a < 10) (hb : b < 10)
    (h : Nat.digitChar a = Nat.digitChar b) : a = b := by
  interval_cases a <;> interval_cases b <;> revert h <;> decide

theorem map_digitChar_inj :
    ∀ l₁ l₂ : List Nat, (∀ d ∈ l₁, d < 10) → (∀ d ∈ l₂, d < 10) →
      l₁.map Nat.digitChar = l₂.map Nat.digitChar → l₁ = l₂ := by
  intro l₁
  induction l₁ with
  | nil =>
    intro l₂ _ _ h
    cases l₂ with
    | nil => rfl
    | cons b l' => exact absurd h (by simp)
  | cons a l ih =>
    intro l₂ h1 h2 h
    cases l₂ with
    | nil => exact absurd h (by simp)
    | cons b l' =>
      rw [List.map_cons, List.map_cons] at h
      obtain ⟨hab, hl⟩ := List.cons.inj h
      have hab' : a = b :=
        digitChar_inj_lt a b (h1 a (List.mem_cons_self a l))
          (h2 b (List.mem_cons_self b l')) hab
      subst hab'
      rw [ih l' (fun d hd => h1 d (List.mem_cons_of_mem a hd))
        (fun d hd => h2 d (List.mem_cons_of_mem a hd)) hl]

theorem decChars_inj {m n : Nat} (h : decChars m = decChars n) : m = n := by
  rw [decChars, decChars] at h
  have hd : (decDigits m).reverse = (decDigits n).reverse := by
    refine map_digitChar_inj _ _ ?_ ?_ h
    · intro d hd
      exact decDigitsAux_lt_ten m m d (List.mem_reverse.mp hd)
    · intro d hd
      exact decDigitsAux_lt_ten n n d (List.mem_reverse.mp hd)
  exact decDigits_inj (List.reverse_injective hd)

theorem dropWhile_replicate_zero :
    ∀ k (l : List Char),
      List.dropWhile (fun c => c == '0') (List.replicate k '0' ++ l)
        = List.dropWhile (fun c => c == '0') l := by
  intro k
  induction k with
  | zero => intro l; rfl
  | succ k ih =>
    intro l
    rw [List.replicate_succ, List.cons_append, List.dropWhile_cons,
      if_pos (by decide)]
    exact ih l

theorem dropWhile_decChars {n : Nat} (h : 1 ≤ n) :
    List.dropWhile (fun c => c == '0') (decChars n) = decChars n := by
  obtain ⟨c, cs, hcc⟩ := List.exists_cons_of_ne_nil (decChars_ne_nil h)
  have hc : c ≠ '0' := by
    have hhead : (decChars n).head? = some c := by rw [hcc]; rfl
    rw [decChars, List.head?_map, List.head?_reverse] at hhead
    obtain ⟨d, hd, hdc⟩ := Option.map_eq_some'.mp hhead
    obtain ⟨hne, hgl⟩ := List.mem_getLast?_eq_getLast (Option.mem_def.mpr hd)
    have hdm : d ∈ decDigits n := hgl ▸ List.getLast_mem hne
    have hd0 : d ≠ 0 := by
      intro h0
      subst h0
      exact decDigitsAux_getLast?_ne_zero n n h le_rfl hd
    rw [← hdc]
    exact digitChar_ne_zero_char d (decDigitsAux_lt_ten n n d hdm) hd0
  rw [hcc, List.dropWhile_cons, if_neg (by simp [hc])]

theorem migFormat_inj : ∀ m n : Nat, migFormat m = migFormat n → m = n := by
  intro m n h
  rw [migFormat, migFormat] at h
  have hdata := congrArg String.data h
  rw [String.data_append, String.data_append] at hdata
  have hpad : List.replicate (6 - (decChars m).length) '0' ++ decChars m
      = List.replicate (6 - (decChars n).length) '0' ++ decChars n :=
    List.append_cancel_left hdata
  have hstrip := congrArg (List.dropWhile (fun c => c == '0')) hpad
  rw [dropWhile_replicate_zero, dropWhile_replicate_zero] at hstrip
  by_cases hm : m = 0
  · by_cases hn : n = 0
    · rw [hm, hn]
    · subst hm
      rw [show decChars 0 = [] from rfl,
        dropWhile_decChars (Nat.pos_of_ne_zero hn)] at hstrip
      exact absurd hstrip.symm (decChars_ne_nil (Nat.pos_of_ne_zero hn))
  · by_cases hn : n = 0
    · subst hn
      rw [show decChars 0 = [] from rfl,
        dropWhile_decChars (Nat.pos_of_ne_zero hm)] at hstrip
      exact absurd hstrip (decChars_ne_nil (Nat.pos_of_ne_zero hm))
    · rw [dropWhile_decChars (Nat.pos_of_ne_zero hm),
        dropWhile_decChars (Nat.pos_of_ne_zero hn)] at hstrip
      exact decChars_inj hstrip

theorem mig_exists_unused (used : List String) (c : Nat) :
    ∃ k, k < used.length + 1 ∧ migFormat (c + k) ∉ used := by
  by_contra hcon
  push_neg at hcon
  have hmem : ∀ k, k < used.length + 1 → migFormat (c + k) ∈ used := hcon
  have hinj : Function.Injective (fun k : Nat => migFormat (c + k)) := by
    intro a b hab
    have := migFormat_inj (c + a) (c + b) hab
    omega
  have hnd : ((List.range (used.length + 1)).map
      (fun k => migFormat (c + k))).Nodup :=
    (List.nodup_range _).map hinj
  have hsub : ((List.range (used.length + 1)).map
      (fun k => migFormat (c + k))).toFinset ⊆ used.toFinset := by
    intro x hx
    rw [List.mem_toFinset, List.mem_map] at hx
    obtain ⟨k, hk, rfl⟩ := hx
    rw [List.mem_toFinset]
    exact hmem k (List.mem_range.mp hk)
  have hcard1 := List.toFinset_card_of_nodup hnd
  have hcard2 := Finset.card_le_card hsub
  have hcard3 := List.toFinset_card_le (l := used)
  rw [hcard1] at hcard2
  rw [List.length_map, List.length_range] at hcard2
  omega

theorem freshMigAux_spec :
    ∀ (fuel : Nat) (used : List String) (c : Nat),
      (∃ k, k < fuel ∧ migFormat (c + k) ∉ used) →
      ∃ m, c ≤ m ∧ freshMigAux fuel used c = (migFormat m, m + 1)
        ∧ migFormat m ∉ used := by
  intro fuel
  induction fuel with
  | zero =>
    intro used c h
    obtain ⟨k, hk, -⟩ := h
    exact absurd hk (by omega)
  | succ fuel ih =>
    intro used c h
    by_cases hc : migFormat c ∈ used
    · obtain ⟨k, hk, hku⟩ := h
      have hk0 : k ≠ 0 := by
        intro h0
        subst h0
        exact hku (by simpa using hc)
      obtain ⟨m, hm1, hm2, hm3⟩ := ih used (c + 1)
        ⟨k - 1, by omega, by
          have : c + 1 + (k - 1) = c + k := by omega
          rw [this]
          exact hku⟩
      refine ⟨m, by omega, ?_, hm3⟩
      rw [freshMigAux, if_pos hc]
      exact hm2
    · refine ⟨c, le_rfl, ?_, hc⟩
      rw [freshMigAux, if_neg hc]

theorem freshMig_spec (used : List String) (c : Nat) :
    ∃ m, c ≤ m ∧ freshMig used c = (migFormat m, m + 1)
      ∧ migFormat m ∉ used := by
  obtain ⟨k, hk, hku⟩ := mig_exists_unused used c
  exact freshMigAux_spec (used.length + 1) used c ⟨k, hk, hku⟩

theorem generate_unique_not_mem_and_used (st : NumberingState)
    (no : Option String) :
    (generate_unique_receipt_number st no).1 ∉ st.used
      ∧ (generate_unique_receipt_number st no).2.used
        = (generate_unique_receipt_number st no).1 :: st.used := by
  cases no with
  | none =>
    obtain ⟨m, -, hm, hmu⟩ := freshMig_spec st.used st.counter
    rw [generate_unique_receipt_number]
    constructor
    · show (freshMig st.used st.counter).1 ∉ st.used
      rw [hm]
      exact hmu
    · rfl
  | some s =>
    rw [generate_unique_receipt_number]
    by_cases hcond : pyStrip s ≠ "" ∧ pyStrip s ≠ "0" ∧ pyStrip s ∉ st.used
    · rw [if_pos hcond]
      exact ⟨hcond.2.2, rfl⟩
    · rw [if_neg hcond]
      obtain ⟨m, -, hm, hmu⟩ := freshMig_spec st.used st.counter
      constructor
      · show (freshMig st.used st.counter).1 ∉ st.used
        rw [hm]
        exact hmu
      · rfl

theorem perReceiptPass_numbers (lk : Lookups) (brs : List LegacyBalanceRecord) :
    ∀ (rs : List LegacyReceipt) (st : NumberingState) (fresh : Nat),
      (∀ n ∈ ((perReceiptPass lk brs rs st fresh).1.receipts.map
          ReceiptRec.receipt_number), n ∉ st.used)
        ∧ ((perReceiptPass lk brs rs st fresh).1.receipts.map
            ReceiptRec.receipt_number).Nodup := by
  intro rs
  induction rs with
  | nil =>
    intro st fresh
    exact ⟨fun n hn => absurd hn (List.not_mem_nil n), List.nodup_nil⟩
  | cons r rest ih =>
    intro st fresh
    rw [perReceiptPass]
    cases heid : find_enrollment_id lk r with
    | none => exact ih st fresh
    | some eid =>
      obtain ⟨hnew, hused⟩ :=
        generate_unique_not_mem_and_used st r.receipt_no
      obtain ⟨ihmem, ihnd⟩ := ih (generate_unique_receipt_number st r.receipt_no).2
        (receiptBalanceRows r brs eid fresh componentOrder
          (receiptComponentRows r eid fresh r.is_cancelled componentOrder 0
            (fresh + 1)).2.2).2
      rw [List.map_cons]
      constructor
      · intro n hn
        rcases List.mem_cons.mp hn with hn1 | hn2
        · subst hn1; exact hnew
        · have := ihmem n hn2
          rw [hused] at this
          intro hmem
          exact this (List.mem_cons_of_mem _ hmem)
      · rw [List.nodup_cons]
        refine ⟨?_, ihnd⟩
        intro hmem
        have := ihmem _ hmem
        rw [hused] at this
        exact this (List.mem_cons_self _ _)

theorem perReceiptPass_length (lk : Lookups) (brs : List LegacyBalanceRecord) :
    ∀ (rs : List LegacyReceipt) (st : NumberingState) (fresh : Nat),
      (perReceiptPass lk brs rs st fresh).1.receipts.length
        = rs.countP (fun r => (find_enrollment_id lk r).isSome) := by
  intro rs
  induction rs with
  | nil => intro st fresh; rfl
  | cons r rest ih =>
    intro st fresh
    rw [perReceiptPass]
    cases heid : find_enrollment_id lk r with
    | none =>
      rw [List.countP_cons_of_neg _ _ (by simp [heid])]
      exact ih st fresh
    | some eid =>
      rw [List.countP_cons_of_pos _ _ (by simp [heid])]
      rw [List.length_cons]
      rw [ih]

/-- C5: receipt numbers are pairwise distinct across the whole run; a legacy
receipt keeps its cleaned original number exactly when it is non-empty,
not '0' and unused so far, and otherwise receives a synthetic `MIG-%06d`
number drawn at a counter value at least the current one (the counter then
moves past it); and no receipt row is lost — there is exactly one output
receipt row per resolvable input receipt. -/
theorem c5_receipt_number_uniqueness :
    (∀ (lk : Lookups) (rs : List LegacyReceipt) (brs : List LegacyBalanceRecord),
      ((transform_all_receipts lk rs brs).receipts.map
        ReceiptRec.receipt_number).Nodup)
    ∧ (∀ (st : NumberingState) (s : String),
        (pyStrip s ≠ "" ∧ pyStrip s ≠ "0" ∧ pyStrip s ∉ st.used →
          generate_unique_receipt_number st (some s)
            = (pyStrip s, ⟨pyStrip s :: st.used, st.counter⟩))
        ∧ (¬(pyStrip s ≠ "" ∧ pyStrip s ≠ "0" ∧ pyStrip s ∉ st.used) →
          ∃ m, st.counter ≤ m ∧
            generate_unique_receipt_number st (some s)
              = (migFormat m, ⟨migFormat m :: st.used, m + 1⟩)
            ∧ migFormat m ∉ st.used))
    ∧ (∀ (lk : Lookups) (rs : List LegacyReceipt) (brs : List LegacyBalanceRecord),
        (transform_all_receipts lk rs brs).receipts.length
          = rs.countP (fun r => (find_enrollment_id lk r).isSome)) := by
  refine ⟨?_, ?_, ?_⟩
  · intro lk rs brs
    exact (perReceiptPass_numbers lk brs rs ⟨[], 1⟩
      (recoPass lk rs brs (enrollmentKeys lk rs) 0).2).2
  · intro st s
    constructor
    · intro hcond
      rw [generate_unique_receipt_number, if_pos hcond]
    · intro hcond
      obtain ⟨m, hm1, hm2, hm3⟩ := freshMig_spec st.used st.counter
      refine ⟨m, hm1, ?_, hm3⟩
      rw [generate_unique_receipt_number, if_neg hcond]
      show ((freshMig st.used st.counter).1,
        (⟨(freshMig st.used st.counter).1 :: st.used,
          (freshMig st.used st.counter).2⟩ : NumberingState)) = _
      rw [hm2]
  · intro lk rs brs
    exact perReceiptPass_length lk brs rs ⟨[], 1⟩
      (recoPass lk rs brs (enrollmentKeys lk rs) 0).2

/-- C5, witness: the theorem applied to the shared one-receipt run and to a
concrete numbering step whose original number is kept. -/
theorem c5_witness :
    ((transform_all_receipts cexLk [cexRcpt] cexBrs).receipts.map
        ReceiptRec.receipt_number).Nodup
    ∧ generate_unique_receipt_number ⟨[], 1⟩ (some "R1")
        = ("R1", ⟨["R1"], 1⟩)
    ∧ (transform_all_receipts cexLk [cexRcpt] cexBrs).receipts.length
        = [cexRcpt].countP (fun r => (find_enrollment_id cexLk r).isSome) :=
  ⟨c5_receipt_number_uniqueness.1 cexLk [cexRcpt] cexBrs,
   (c5_receipt_number_uniqueness.2.1 ⟨[], 1⟩ "R1").1 (by decide),
   c5_receipt_number_uniqueness.2.2 cexLk [cexRcpt] cexBrs⟩

theorem perReceiptPass_receipts_mem (lk : Lookups)
    (brs : List LegacyBalanceRecord) :
    ∀ (rs : List LegacyReceipt) (st : NumberingState) (fresh : Nat),
      ∀ rec ∈ (perReceiptPass lk brs rs st fresh).1.receipts,
        ∃ r ∈ rs, ∃ eid, find_enrollment_id lk r = some eid
          ∧ rec.legacy_receipt_id = r.id ∧ rec.enrollment_id = eid
          ∧ rec.status = (if r.is_cancelled then RStatus.CANCELLED
              else RStatus.ACTIVE)
          ∧ rec.total_amount = calculate_total_amount r
          ∧ rec.paid_amount = calculate_total_amount r := by
  intro rs
  induction rs with
  | nil => intro st fresh rec hrec; exact absurd hrec (List.not_mem_nil rec)
  | cons r rest ih =>
    intro st fresh rec hrec
    rw [perReceiptPass] at hrec
    cases heid : find_enrollment_id lk r with
    | none =>
      rw [heid] at hrec
      obtain ⟨r', hr', rest'⟩ := ih st fresh rec hrec
      exact ⟨r', List.mem_cons_of_mem r hr', rest'⟩
    | some eid =>
      rw [heid] at hrec
      rcases List.mem_cons.mp hrec with h1 | h2
      · subst h1
        exact ⟨r, List.mem_cons_self r rest, eid, heid, rfl, rfl, rfl, rfl, rfl⟩
      · obtain ⟨r', hr', rest'⟩ := ih _ _ rec h2
        exact ⟨r', List.mem_cons_of_mem r hr', rest'⟩

theorem perReceiptPass_receipts_countP (lk : Lookups)
    (brs : List LegacyBalanceRecord) (r : LegacyReceipt)
    (hres : (find_enrollment_id lk r).isSome) :
    ∀ (rs : List LegacyReceipt) (st : NumberingState) (fresh : Nat),
      (rs.map LegacyReceipt.id).Nodup → r ∈ rs →
      ((perReceiptPass lk brs rs st fresh).1.receipts.countP
        (fun rec => decide (rec.legacy_receipt_id = r.id))) = 1 := by
  intro rs
  induction rs with
  | nil => intro st fresh _ hr; exact absurd hr (List.not_mem_nil r)
  | cons r' rest ih =>
    intro st fresh hnd hr
    rw [List.map_cons, List.nodup_cons] at hnd
    rw [perReceiptPass]
    rcases List.mem_cons.mp hr with hrr | hrest
    · subst hrr
      obtain ⟨eid, heid⟩ := Option.isSome_iff_exists.mp hres
      rw [heid]
      rw [List.countP_cons_of_pos _ _ (by simp)]
      have hzero : ((perReceiptPass lk brs rest
          (generate_unique_receipt_number st r.receipt_no).2
          (receiptBalanceRows r brs eid fresh componentOrder
            (receiptComponentRows r eid fresh r.is_cancelled componentOrder 0
              (fresh + 1)).2.2).2).1.receipts.countP
          (fun rec => decide (rec.legacy_receipt_id = r.id))) = 0 := by
        rw [List.countP_eq_zero]
        intro rec hrec
        obtain ⟨r'', hr'', -, -, hid, -⟩ :=
          perReceiptPass_receipts_mem lk brs rest _ _ rec hrec
        simp only [decide_eq_true_eq]
        intro hcontra
        exact hnd.1 (List.mem_map.mpr ⟨r'', hr'', by rw [← hid, hcontra]⟩)
      rw [hzero]
    · have hne : r'.id ≠ r.id := by
        intro hid
        exact hnd.1 (hid ▸ List.mem_map_of_mem LegacyReceipt.id hrest)
      cases heid' : find_enrollment_id lk r' with
      | none => exact ih st fresh hnd.2 hrest
      | some eid' =>
        rw [List.countP_cons_of_neg _ _ (by simp [hne])]
        exact ih _ _ hnd.2 hrest

/-- C6: every legacy receipt whose enrollment resolves appears exactly once
in the receipts output — including cancelled and zero-total ones — with
status CANCELLED iff the legacy flag is set, and with total and paid
amounts both equal to the sum of the four legacy component amounts. -/
theorem c6_resolved_receipt_exactly_once (lk : Lookups)
    (brs : List LegacyBalanceRecord) (rs : List LegacyReceipt)
    (r : LegacyReceipt) (eid : String)
    (hnodup : (rs.map LegacyReceipt.id).Nodup)
    (hr : r ∈ rs) (heid : find_enrollment_id lk r = some eid) :
    ((transform_all_receipts lk rs brs).receipts.countP
      (fun rec => decide (rec.legacy_receipt_id = r.id))) = 1
    ∧ ∀ rec ∈ (transform_all_receipts lk rs brs).receipts,
        rec.legacy_receipt_id = r.id →
          rec.enrollment_id = eid
          ∧ rec.status = (if r.is_cancelled then RStatus.CANCELLED
              else RStatus.ACTIVE)
          ∧ rec.total_amount = calculate_total_amount r
          ∧ rec.paid_amount = calculate_total_amount r := by
  constructor
  · exact perReceiptPass_receipts_countP lk brs r (by rw [heid]; rfl) rs _ _
      hnodup hr
  · intro rec hrec hid
    obtain ⟨r', hr', eid', heid', hid', hen, hst, hto, hpa⟩ :=
      perReceiptPass_receipts_mem lk brs rs _ _ rec hrec
    have : r' = r := List.inj_on_of_nodup_map hnodup hr' hr (by rw [← hid', hid])
    subst this
    obtain rfl : eid' = eid := by rw [heid] at heid'; exact (Option.some_inj.mp heid').symm
    exact ⟨hen, hst, hto, hpa⟩

/-- C6, witness: in the shared run the one resolved receipt appears exactly
once with the expected totals and status. -/
theorem c6_witness :
    ((transform_all_receipts cexLk [cexRcpt] cexBrs).receipts.countP
      (fun rec => decide (rec.legacy_receipt_id = cexRcpt.id))) = 1 :=
  (c6_resolved_receipt_exactly_once cexLk cexBrs [cexRcpt] cexRcpt "EN1"
    (by decide) (by decide) (by decide)).1

theorem receiptComponentRows_allocs_mem (r : LegacyReceipt) (eid : String)
    (rid : Nat) (cancelled : Bool) :
    ∀ (cs : List Component) (running : Int) (fresh : Nat),
      ∀ a ∈ (receiptComponentRows r eid rid cancelled cs running fresh).2.1,
        a.legacy_record_id = r.id ∧ a.receipt_id = rid ∧ a.enrollment_id = eid := by
  intro cs
  induction cs with
  | nil => intro running fresh a ha; exact absurd ha (List.not_mem_nil a)
  | cons c' cs ih =>
    intro running fresh a ha
    rw [receiptComponentRows] at ha
    by_cases hp : 0 < paymentAmount r c'
    · rw [if_pos hp] at ha
      rcases List.mem_cons.mp ha with h1 | h2
      · subst h1; exact ⟨rfl, rfl, rfl⟩
      · exact ih _ _ a h2
    · rw [if_neg hp] at ha
      exact ih _ _ a ha

theorem receiptComponentRows_alloc_countP (r : LegacyReceipt) (eid : String)
    (rid : Nat) (cancelled : Bool) (c : Component) :
    ∀ (cs : List Component) (running : Int) (fresh : Nat), cs.Nodup →
      ((receiptComponentRows r eid rid cancelled cs running fresh).2.1.countP
        (fun a => decide (a.legacy_record_id = r.id)
          && decide (a.fee_component = c)))
        = if c ∈ cs ∧ 0 < paymentAmount r c then 1 else 0 := by
  intro cs
  induction cs with
  | nil =>
    intro running fresh _
    rw [if_neg (by simp)]
    rfl
  | cons c' cs ih =>
    intro running fresh hnd
    rw [List.nodup_cons] at hnd
    rw [receiptComponentRows]
    by_cases hp : 0 < paymentAmount r c'
    · rw [if_pos hp]
      by_cases hcc : c' = c
      · subst hcc
        rw [List.countP_cons_of_pos _ _ (by simp)]
        rw [ih _ _ hnd.2, if_neg (by
          intro hcon
          exact hnd.1 hcon.1)]
        rw [if_pos ⟨List.mem_cons_self c' cs, hp⟩]
      · rw [List.countP_cons_of_neg _ _ (by simp [hcc])]
        rw [ih _ _ hnd.2]
        by_cases hc2 : c ∈ cs ∧ 0 < paymentAmount r c
        · rw [if_pos hc2, if_pos ⟨List.mem_cons_of_mem c' hc2.1, hc2.2⟩]
        · rw [if_neg hc2, if_neg (by
            intro hcon
            exact hc2 ⟨by
              rcases List.mem_cons.mp hcon.1 with h | h
              · exact absurd h.symm hcc
              · exact h, hcon.2⟩)]
    · rw [if_neg hp]
      rw [ih _ _ hnd.2]
      by_cases hc2 : c ∈ cs ∧ 0 < paymentAmount r c
      · rw [if_pos hc2, if_pos ⟨List.mem_cons_of_mem c' hc2.1, hc2.2⟩]
      · rw [if_neg hc2, if_neg (by
          intro hcon
          refine hc2 ⟨?_, hcon.2⟩
          rcases List.mem_cons.mp hcon.1 with h | h
          · subst h; exact absurd hcon.2 hp
          · exact h)]

theorem receiptComponentRows_alloc_exists (r : LegacyReceipt) (eid : String)
    (rid : Nat) (cancelled : Bool) (c : Component)
    (hp : 0 < paymentAmount r c) :
    ∀ (cs : List Component) (running : Int) (fresh : Nat), c ∈ cs →
      ∃ a ∈ (receiptComponentRows r eid rid cancelled cs running fresh).2.1,
        a.fee_component = c ∧ a.legacy_record_id = r.id
          ∧ a.allocated_amount = paymentAmount r c ∧ a.receipt_id = rid
          ∧ ∃ ev ∈ (receiptComponentRows r eid rid cancelled cs running fresh).1,
              ev.id = a.ledger_event_id ∧ ev.fee_component = c
                ∧ ev.legacy_receipt_id = r.id ∧ ev.receipt_id = some rid := by
  intro cs
  induction cs with
  | nil => intro running fresh hc; exact absurd hc (List.not_mem_nil c)
  | cons c' cs ih =>
    intro running fresh hc
    rw [receiptComponentRows]
    rcases List.mem_cons.mp hc with hcc | hcs
    · subst hcc
      rw [if_pos hp]
      refine ⟨⟨fresh + 1, rid, fresh, c, paymentAmount r c, eid, r.id⟩,
        List.mem_cons_self _ _, rfl, rfl, rfl, rfl,
        ⟨fresh, if cancelled then EventType.PAYMENT_CANCELLED
          else EventType.PAYMENT_RECEIVED, eid, c, paymentAmount r c,
          running - paymentAmount r c, some rid, r.id⟩,
        List.mem_cons_self _ _, rfl, rfl, rfl, rfl⟩
    · by_cases hp' : 0 < paymentAmount r c'
      · rw [if_pos hp']
        obtain ⟨a, ha, h1, h2, h3, h4, ev, hev, h5⟩ :=
          ih (running - paymentAmount r c') (fresh + 2) hcs
        exact ⟨a, List.mem_cons_of_mem _ ha, h1, h2, h3, h4, ev,
          List.mem_cons_of_mem _ hev, h5⟩
      · rw [if_neg hp']
        exact ih running fresh hcs

theorem perReceiptPass_allocs_mem (lk : Lookups)
    (brs : List LegacyBalanceRecord) :
    ∀ (rs : List LegacyReceipt) (st : NumberingState) (fresh : Nat),
      ∀ a ∈ (perReceiptPass lk brs rs st fresh).1.allocations,
        ∃ r' ∈ rs, a.legacy_record_id = r'.id := by
  intro rs
  induction rs with
  | nil => intro st fresh a ha; exact absurd ha (List.not_mem_nil a)
  | cons r rest ih =>
    intro st fresh a ha
    rw [perReceiptPass] at ha
    cases heid : find_enrollment_id lk r with
    | none =>
      rw [heid] at ha
      obtain ⟨r', hr', hid⟩ := ih st fresh a ha
      exact ⟨r', List.mem_cons_of_mem r hr', hid⟩
    | some eid =>
      rw [heid] at ha
      rcases List.mem_append.mp ha with h1 | h2
      · obtain ⟨hid, -, -⟩ :=
          receiptComponentRows_allocs_mem r eid fresh r.is_cancelled
            componentOrder 0 (fresh + 1) a h1
        exact ⟨r, List.mem_cons_self r rest, hid⟩
      · obtain ⟨r', hr', hid⟩ := ih _ _ a h2
        exact ⟨r', List.mem_cons_of_mem r hr', hid⟩

theorem perReceiptPass_alloc_countP (lk : Lookups)
    (brs : List LegacyBalanceRecord) (r : LegacyReceipt) (c : Component)
    (hres : (find_enrollment_id lk r).isSome) :
    ∀ (rs : List LegacyReceipt) (st : NumberingState) (fresh : Nat),
      (rs.map LegacyReceipt.id).Nodup → r ∈ rs →
      ((perReceiptPass lk brs rs st fresh).1.allocations.countP
        (fun a => decide (a.legacy_record_id = r.id)
          && decide (a.fee_component = c)))
        = if 0 < paymentAmount r c then 1 else 0 := by
  intro rs
  induction rs with
  | nil => intro st fresh _ hr; exact absurd hr (List.not_mem_nil r)
  | cons r' rest ih =>
    intro st fresh hnd hr
    rw [List.map_cons, List.nodup_cons] at hnd
    rw [perReceiptPass]
    rcases List.mem_cons.mp hr with hrr | hrest
    · subst hrr
      obtain ⟨eid, heid⟩ := Option.isSome_iff_exists.mp hres
      rw [heid, List.countP_append]
      have hstep := receiptComponentRows_alloc_countP r eid fresh
        r.is_cancelled c componentOrder 0 (fresh + 1) componentOrder_nodup
      have hrest0 : ((perReceiptPass lk brs rest
          (generate_unique_receipt_number st r.receipt_no).2
          (receiptBalanceRows r brs eid fresh componentOrder
            (receiptComponentRows r eid fresh r.is_cancelled componentOrder 0
              (fresh + 1)).2.2).2).1.allocations.countP
          (fun a => decide (a.legacy_record_id = r.id)
            && decide (a.fee_component = c))) = 0 := by
        rw [List.countP_eq_zero]
        intro a ha
        obtain ⟨r'', hr'', hid⟩ := perReceiptPass_allocs_mem lk brs rest _ _ a ha
        simp only [Bool.and_eq_true, decide_eq_true_eq, not_and]
        intro hcontra _
        exact hnd.1 (List.mem_map.mpr ⟨r'', hr'', by rw [← hid, hcontra]⟩)
      rw [hstep, hrest0]
      by_cases hp : 0 < paymentAmount r c
      · rw [if_pos ⟨component_mem_order c, hp⟩, if_pos hp]
      · rw [if_neg (by intro hcon; exact hp hcon.2), if_neg hp]
    · have hne : r'.id ≠ r.id := by
        intro hid
        exact hnd.1 (hid ▸ List.mem_map_of_mem LegacyReceipt.id hrest)
      cases heid' : find_enrollment_id lk r' with
      | none => exact ih st fresh hnd.2 hrest
      | some eid' =>
        rw [List.countP_append]
        have hstep0 : ((receiptComponentRows r' eid' fresh r'.is_cancelled
            componentOrder 0 (fresh + 1)).2.1.countP
            (fun a => decide (a.legacy_record_id = r.id)
              && decide (a.fee_component = c))) = 0 := by
          rw [List.countP_eq_zero]
          intro a ha
          obtain ⟨hid, -, -⟩ :=
            receiptComponentRows_allocs_mem r' eid' fresh r'.is_cancelled
              componentOrder 0 (fresh + 1) a ha
          simp only [Bool.and_eq_true, decide_eq_true_eq, not_and]
          intro hcontra
          rw [hid] at hcontra
          exact absurd hcontra hne
        rw [hstep0, ih _ _ hnd.2 hrest, Nat.zero_add]

theorem perReceiptPass_alloc_exists (lk : Lookups)
    (brs : List LegacyBalanceRecord) (r : LegacyReceipt) (c : Component)
    (eid : String) (heid : find_enrollment_id lk r = some eid)
    (hp : 0 < paymentAmount r c) :
    ∀ (rs : List LegacyReceipt) (st : NumberingState) (fresh : Nat), r ∈ rs →
      ∃ a ∈ (perReceiptPass lk brs rs st fresh).1.allocations,
        a.fee_component = c ∧ a.legacy_record_id = r.id
          ∧ a.allocated_amount = paymentAmount r c
          ∧ (∃ ev ∈ (perReceiptPass lk brs rs st fresh).1.events,
              ev.id = a.ledger_event_id ∧ ev.fee_component = c
                ∧ ev.legacy_receipt_id = r.id ∧ ev.receipt_id = some a.receipt_id)
          ∧ (∃ rrec ∈ (perReceiptPass lk brs rs st fresh).1.receipts,
              rrec.id = a.receipt_id ∧ rrec.legacy_receipt_id = r.id) := by
  intro rs
  induction rs with
  | nil => intro st fresh hr; exact absurd hr (List.not_mem_nil r)
  | cons r' rest ih =>
    intro st fresh hr
    rw [perReceiptPass]
    rcases List.mem_cons.mp hr with hrr | hrest
    · subst hrr
      rw [heid]
      obtain ⟨a, ha, h1, h2, h3, hrid, ev, hev, hev1, hev2, hev3, hev4⟩ :=
        receiptComponentRows_alloc_exists r eid fresh r.is_cancelled c hp
          componentOrder 0 (fresh + 1) (component_mem_order c)
      refine ⟨a, List.mem_append_left _ ha, h1, h2, h3,
        ⟨ev, List.mem_append_left _ hev, hev1, hev2, hev3, by rw [hev4, hrid]⟩,
        ⟨⟨fresh, (generate_unique_receipt_number st r.receipt_no).1, eid,
          calculate_total_amount r, calculate_total_amount r,
          if r.is_cancelled then RStatus.CANCELLED else RStatus.ACTIVE, r.id⟩,
          List.mem_cons_self _ _, by rw [hrid], rfl⟩⟩
    · cases heid' : find_enrollment_id lk r' with
      | none => exact ih st fresh hrest
      | some eid' =>
        obtain ⟨a, ha, h1, h2, h3, ⟨ev, hev, hev'⟩, ⟨rrec, hrrec, hrrec'⟩⟩ :=
          ih (generate_unique_receipt_number st r'.receipt_no).2
            (receiptBalanceRows r' brs eid' fresh componentOrder
              (receiptComponentRows r' eid' fresh r'.is_cancelled componentOrder 0
                (fresh + 1)).2.2).2 hrest
        exact ⟨a, List.mem_append_right _ ha, h1, h2, h3,
          ⟨ev, List.mem_append_right _ hev, hev'⟩,
          ⟨rrec, List.mem_cons_of_mem _ hrrec, hrrec'⟩⟩

/-- C7: for a resolved receipt and a component with a strictly positive
legacy amount, exactly one allocation row references that receipt and
component; it carries the legacy amount, links to a ledger event of the
same component and receipt (itself linked to the output receipt row), and
to the output receipt row itself; components with non-positive amounts get
no allocation row. -/
theorem c7_allocation_completeness (lk : Lookups)
    (brs : List LegacyBalanceRecord) (rs : List LegacyReceipt)
    (r : LegacyReceipt) (eid : String) (c : Component)
    (hnodup : (rs.map LegacyReceipt.id).Nodup)
    (hr : r ∈ rs) (heid : find_enrollment_id lk r = some eid) :
    (0 < paymentAmount r c →
      ((transform_all_receipts lk rs brs).allocations.countP
        (fun a => decide (a.legacy_record_id = r.id)
          && decide (a.fee_component = c))) = 1
      ∧ ∃ a ∈ (transform_all_receipts lk rs brs).allocations,
          a.fee_component = c ∧ a.legacy_record_id = r.id
            ∧ a.allocated_amount = paymentAmount r c
            ∧ (∃ ev ∈ (transform_all_receipts lk rs brs).events,
                ev.id = a.ledger_event_id ∧ ev.fee_component = c
                  ∧ ev.legacy_receipt_id = r.id
                  ∧ ev.receipt_id = some a.receipt_id)
            ∧ (∃ rrec ∈ (transform_all_receipts lk rs brs).receipts,
                rrec.id = a.receipt_id ∧ rrec.legacy_receipt_id = r.id))
    ∧ (paymentAmount r c ≤ 0 →
      ((transform_all_receipts lk rs brs).allocations.countP
        (fun a => decide (a.legacy_record_id = r.id)
          && decide (a.fee_component = c))) = 0) := by
  have hcount := perReceiptPass_alloc_countP lk brs r c (by rw [heid]; rfl)
    rs ⟨[], 1⟩ (recoPass lk rs brs (enrollmentKeys lk rs) 0).2 hnodup hr
  constructor
  · intro hp
    constructor
    · rw [show (transform_all_receipts lk rs brs).allocations
          = (perReceiptPass lk brs rs ⟨[], 1⟩
              (recoPass lk rs brs (enrollmentKeys lk rs) 0).2).1.allocations
        from rfl, hcount, if_pos hp]
    · obtain ⟨a, ha, h1, h2, h3, ⟨ev, hev, hev'⟩, ⟨rrec, hrrec, hrrec'⟩⟩ :=
        perReceiptPass_alloc_exists lk brs r c eid heid hp rs ⟨[], 1⟩
          (recoPass lk rs brs (enrollmentKeys lk rs) 0).2 hr
      exact ⟨a, ha, h1, h2, h3,
        ⟨ev, List.mem_append_right _ hev, hev'⟩, ⟨rrec, hrrec, hrrec'⟩⟩
  · intro hp
    rw [show (transform_all_receipts lk rs brs).allocations
        = (perReceiptPass lk brs rs ⟨[], 1⟩
            (recoPass lk rs brs (enrollmentKeys lk rs) 0).2).1.allocations
      from rfl, hcount, if_neg (by omega)]

/-- C7, witness: in the shared run the registration component of the
resolved receipt has exactly one allocation row. -/
theorem c7_witness :
    ((transform_all_receipts cexLk [cexRcpt] cexBrs).allocations.countP
      (fun a => decide (a.legacy_record_id = cexRcpt.id)
        && decide (a.fee_component = Component.reg))) = 1 :=
  ((c7_allocation_completeness cexLk cexBrs [cexRcpt] cexRcpt "EN1"
    Component.reg (by decide) (by decide) (by decide)).1 (by decide)).1

/-- A legacy receipt with a present negative registration amount. -/
def c8neg : LegacyReceipt := ⟨9, "A", "E1", 1, some (-5), none, none, none, false, none⟩

/-- C8, counterexample: a present negative legacy amount is not coerced to
zero at ingestion — the ingestion idiom `float(x or 0)` only maps falsy
values to zero — so both the total calculation and the per-component
amount used by ledger reconstruction see the negative value. -/
theorem c8_counterexample :
    calculate_total_amount c8neg = -5
    ∧ paymentAmount c8neg Component.reg = -5
    ∧ ¬(0 ≤ calculate_total_amount c8neg) :=
  ⟨by decide, by decide, by decide⟩

/-- C8 (amended): ingestion coerces an absent component amount to zero, and
passes a present value — including a negative one — through unchanged into
the total calculation and the ledger reconstruction. -/
theorem c8_negative_amounts_amended :
    (∀ v : Int, readAmount (some v) = v)
    ∧ readAmount none = 0
    ∧ (∀ a b c d : Int,
        calculate_total_amount ⟨0, "", "", 0, some a, some b, some c, some d,
          false, none⟩ = a + b + c + d)
    ∧ (∀ r : LegacyReceipt, paymentAmount r Component.reg = readAmount r.reg_fee) :=
  ⟨fun _ => rfl, rfl, fun _ _ _ _ => rfl, fun _ => rfl⟩

/-- C9, counterexample: with the enrollment and student mapping files both
missing, the run does not abort — it completes successfully (here with
empty outputs, every receipt being unresolvable against empty lookups). -/
theorem c9_counterexample :
    run_complete_transformation none none (some [cexRcpt]) none
      = Except.ok ⟨[], [], [], []⟩ := by
  rfl

/-- C9 (amended): only the legacy receipts file is required: when it is
missing the run aborts with an error before any output exists, but missing
enrollment or student mapping files are silently tolerated (their lookups
are left empty) and the run completes for any receipt input. -/
theorem c9_missing_input_amended (enrollFile : Option (List EnrollRow))
    (studentFile : Option (List StudentRow))
    (balanceFile : Option (List LegacyBalanceRecord)) :
    (∀ rs : List LegacyReceipt, ∃ out,
      run_complete_transformation enrollFile studentFile (some rs) balanceFile
        = Except.ok out)
    ∧ (∃ msg, run_complete_transformation enrollFile studentFile none balanceFile
        = Except.error msg) :=
  ⟨fun _ => ⟨_, rfl⟩, ⟨_, rfl⟩⟩

/-- C9, witness: the amended theorem applied at concrete inputs. -/
theorem c9_witness :
    (∃ out, run_complete_transformation (some []) (some []) (some [cexRcpt]) none
      = Except.ok out)
    ∧ (∃ msg, run_complete_transformation (some []) (some []) none none
      = Except.error msg) :=
  ⟨(c9_missing_input_amended (some []) (some []) none).1 [cexRcpt],
    (c9_missing_input_amended (some []) (some []) none).2⟩

theorem receiptComponentRows_event_exists (r : LegacyReceipt) (eid : String)
    (rid : Nat) (cancelled : Bool) (c : Component)
    (hp : 0 < paymentAmount r c) :
    ∀ (cs : List Component) (running : Int) (fresh : Nat), c ∈ cs →
      ∃ ev ∈ (receiptComponentRows r eid rid cancelled cs running fresh).1,
        ev.legacy_receipt_id = r.id ∧ ev.fee_component = c
          ∧ ev.amount = paymentAmount r c ∧ ev.receipt_id = some rid := by
  intro cs
  induction cs with
  | nil => intro running fresh hc; exact absurd hc (List.not_mem_nil c)
  | cons c' cs ih =>
    intro running fresh hc
    rw [receiptComponentRows]
    rcases List.mem_cons.mp hc with hcc | hcs
    · subst hcc
      rw [if_pos hp]
      exact ⟨_, List.mem_cons_self _ _, rfl, rfl, rfl, rfl⟩
    · by_cases hp' : 0 < paymentAmount r c'
      · rw [if_pos hp']
        obtain ⟨ev, hev, hfs⟩ := ih (running - paymentAmount r c') (fresh + 2) hcs
        exact ⟨ev, List.mem_cons_of_mem _ hev, hfs⟩
      · rw [if_neg hp']
        exact ih running fresh hcs

theorem perReceiptPass_event_exists (lk : Lookups)
    (brs : List LegacyBalanceRecord) (r : LegacyReceipt) (c : Component)
    (eid : String) (heid : find_enrollment_id lk r = some eid)
    (hp : 0 < paymentAmount r c) :
    ∀ (rs : List LegacyReceipt) (st : NumberingState) (fresh : Nat), r ∈ rs →
      ∃ ev ∈ (perReceiptPass lk brs rs st fresh).1.events,
        ev.legacy_receipt_id = r.id ∧ ev.fee_component = c
          ∧ ev.amount = paymentAmount r c
          ∧ ∃ rrec ∈ (perReceiptPass lk brs rs st fresh).1.receipts,
              ev.receipt_id = some rrec.id ∧ rrec.legacy_receipt_id = r.id := by
  intro rs
  induction rs with
  | nil => intro st fresh hr; exact absurd hr (List.not_mem_nil r)
  | cons r' rest ih =>
    intro st fresh hr
    rw [perReceiptPass]
    rcases List.mem_cons.mp hr with hrr | hrest
    · subst hrr
      rw [heid]
      obtain ⟨ev, hev, h1, h2, h3, h4⟩ :=
        receiptComponentRows_event_exists r eid fresh r.is_cancelled c hp
          componentOrder 0 (fresh + 1) (component_mem_order c)
      exact ⟨ev, List.mem_append_left _ hev, h1, h2, h3,
        ⟨_, List.mem_cons_self _ _, h4, rfl⟩⟩
    · cases heid' : find_enrollment_id lk r' with
      | none => exact ih st fresh hrest
      | some eid' =>
        obtain ⟨ev, hev, h1, h2, h3, rrec, hrrec, h4⟩ :=
          ih (generate_unique_receipt_number st r'.receipt_no).2
            (receiptBalanceRows r' brs eid' fresh componentOrder
              (receiptComponentRows r' eid' fresh r'.is_cancelled componentOrder 0
                (fresh + 1)).2.2).2 hrest
        exact ⟨ev, List.mem_append_right _ hev, h1, h2, h3,
          ⟨rrec, List.mem_cons_of_mem _ hrrec, h4⟩⟩

theorem mem_insertByDate (a r : LegacyReceipt) :
    ∀ l : List LegacyReceipt, a ∈ insertByDate r l ↔ a = r ∨ a ∈ l := by
  intro l
  induction l with
  | nil => simp [insertByDate]
  | cons x xs ih =>
    rw [insertByDate]
    by_cases hd : x.fee_date < r.fee_date
    · rw [if_pos hd]
      rw [List.mem_cons, ih, List.mem_cons]
      tauto
    · rw [if_neg hd]
      simp [List.mem_cons]

theorem mem_sortByDate (a : LegacyReceipt) :
    ∀ l : List LegacyReceipt, a ∈ sortByDate l ↔ a ∈ l := by
  intro l
  induction l with
  | nil => simp [sortByDate]
  | cons x xs ih =>
    rw [sortByDate, mem_insertByDate, ih, List.mem_cons]

theorem paymentEvent_mem_reconstructHistory (brs : List LegacyBalanceRecord)
    (r : LegacyReceipt) (c : Component) (hp : 0 < paymentAmount r c) :
    ∀ rs : List LegacyReceipt, r ∈ rs →
      (⟨r, c, .PAYMENT_RECEIVED, -(paymentAmount r c),
        balanceAfter brs r c, false⟩ : FeeEvent) ∈ reconstructHistory brs rs := by
  have hmem : ∀ rs' : List LegacyReceipt, r ∈ rs' →
      (⟨r, c, .PAYMENT_RECEIVED, -(paymentAmount r c),
        balanceAfter brs r c, false⟩ : FeeEvent) ∈ allPaymentEvents brs rs' := by
    intro rs'
    induction rs' with
    | nil => intro h; exact absurd h (List.not_mem_nil r)
    | cons r' rest ih =>
      intro h
      rw [allPaymentEvents]
      rcases List.mem_cons.mp h with hrr | hrest
      · subst hrr
        refine List.mem_append_left _ ?_
        rw [paymentEvents, List.mem_filterMap]
        refine ⟨c, component_mem_order c, ?_⟩
        rw [paymentEvent?]
        rw [if_pos hp]
      · exact List.mem_append_right _ (ih hrest)
  intro rs hr
  have hsome : (rs.find? anyPositivePayment).isSome := by
    rw [List.find?_isSome]
    refine ⟨r, hr, ?_⟩
    rw [anyPositivePayment, List.any_eq_true]
    exact ⟨c, component_mem_order c, decide_eq_true hp⟩
  obtain ⟨r0, hfind⟩ := Option.isSome_iff_exists.mp hsome
  rw [reconstructHistory_decomp brs rs r0 hfind]
  exact List.mem_append_right _ (hmem rs hr)

theorem renderRecoEvents_mem (eid : String) :
    ∀ (evs : List FeeEvent) (fresh : Nat), ∀ fe ∈ evs,
      ∃ er ∈ (renderRecoEvents eid evs fresh).1,
        er.enrollment_id = eid ∧ er.legacy_receipt_id = fe.receipt.id
          ∧ er.fee_component = fe.component ∧ er.amount = fe.amount
          ∧ er.event_type = fe.event_type
          ∧ er.running_balance = fe.running_balance := by
  intro evs
  induction evs with
  | nil => intro fresh fe hfe; exact absurd hfe (List.not_mem_nil fe)
  | cons e rest ih =>
    intro fresh fe hfe
    rw [renderRecoEvents]
    rcases List.mem_cons.mp hfe with h1 | h2
    · subst h1
      rw [renderRecoEvent]
      by_cases hin : fe.is_initial_charge
      · rw [if_pos hin]
        exact ⟨_, List.mem_cons_self _ _, rfl, rfl, rfl, rfl, rfl, rfl⟩
      · rw [if_neg hin]
        exact ⟨_, List.mem_cons_self _ _, rfl, rfl, rfl, rfl, rfl, rfl⟩
    · obtain ⟨er, her, hfs⟩ := ih (renderRecoEvent eid e fresh).2 fe h2
      exact ⟨er, List.mem_cons_of_mem _ her, hfs⟩

theorem mem_enrollmentKeysAux (lk : Lookups) (eid : String)
    (r : LegacyReceipt) (heid : find_enrollment_id lk r = some eid) :
    ∀ (rs : List LegacyReceipt) (seen : List String), r ∈ rs → eid ∉ seen →
      eid ∈ enrollmentKeysAux lk rs seen := by
  intro rs
  induction rs with
  | nil => intro seen hr _; exact absurd hr (List.not_mem_nil r)
  | cons r' rest ih =>
    intro seen hr hseen
    rw [enrollmentKeysAux]
    rcases List.mem_cons.mp hr with hrr | hrest
    · subst hrr
      rw [heid]
      show eid ∈ (if eid ∈ seen then enrollmentKeysAux lk rest seen
        else eid :: enrollmentKeysAux lk rest (eid :: seen))
      rw [if_neg hseen]
      exact List.mem_cons_self _ _
    · cases heid' : find_enrollment_id lk r' with
      | none => exact ih seen hrest hseen
      | some eid' =>
        show eid ∈ (if eid' ∈ seen then enrollmentKeysAux lk rest seen
          else eid' :: enrollmentKeysAux lk rest (eid' :: seen))
        by_cases hs : eid' ∈ seen
        · rw [if_pos hs]
          exact ih seen hrest hseen
        · rw [if_neg hs]
          by_cases hee : eid' = eid
          · subst hee
            exact List.mem_cons_self _ _
          · refine List.mem_cons_of_mem _ (ih (eid' :: seen) hrest ?_)
            intro hcon
            rcases List.mem_cons.mp hcon with h | h
            · exact hee h.symm
            · exact hseen h

theorem recoPass_mem (lk : Lookups) (rs : List LegacyReceipt)
    (brs : List LegacyBalanceRecord) :
    ∀ (keys : List String) (fresh : Nat) (eid : String), eid ∈ keys →
      ∀ r0, groupFirst lk rs eid = some r0 →
      ∀ fe ∈ reconstruct_student_fee_history lk rs brs r0.student_id eid,
        ∃ er ∈ (recoPass lk rs brs keys fresh).1,
          er.enrollment_id = eid ∧ er.legacy_receipt_id = fe.receipt.id
            ∧ er.fee_component = fe.component ∧ er.amount = fe.amount
            ∧ er.event_type = fe.event_type
            ∧ er.running_balance = fe.running_balance := by
  intro keys
  induction keys with
  | nil => intro fresh eid hk; exact absurd hk (List.not_mem_nil eid)
  | cons k keys ih =>
    intro fresh eid hk r0 hg fe hfe
    rcases List.mem_cons.mp hk with hkk | hkeys
    · subst hkk
      rw [recoPass, hg]
      obtain ⟨er, her, hfs⟩ := renderRecoEvents_mem eid
        (reconstruct_student_fee_history lk rs brs r0.student_id eid) fresh fe hfe
      exact ⟨er, List.mem_append_left _ her, hfs⟩
    · cases hg' : groupFirst lk rs k with
      | none =>
        rw [recoPass, hg']
        exact ih fresh eid hkeys r0 hg fe hfe
      | some r0' =>
        rw [recoPass, hg']
        obtain ⟨er, her, hfs⟩ := ih
          (renderRecoEvents k
            (reconstruct_student_fee_history lk rs brs r0'.student_id k) fresh).2
          eid hkeys r0 hg fe hfe
        exact ⟨er, List.mem_append_right _ her, hfs⟩

/-- Second receipt of the C10 counterexample: same enrollment code, but a
different legacy student id than the group's first receipt. -/
def c10r2 : LegacyReceipt := ⟨2, "B", "E1", 2, some 7, none, none, none, false, none⟩

/-- C10, counterexample: receipt 2 resolves to enrollment "EN1" and pays 7
on registration, but because its student id "B" differs from the student
id "A" of the first receipt grouped under "EN1", the
history-reconstruction pass skips it and the events table holds exactly
one event for (receipt 2, registration), not two. -/
theorem c10_counterexample :
    find_enrollment_id cexLk c10r2 = some "EN1"
    ∧ 0 < paymentAmount c10r2 Component.reg
    ∧ c10r2.student_id ≠ cexRcpt.student_id
    ∧ ((transform_all_receipts cexLk [cexRcpt, c10r2] cexBrs).events.countP
        (fun e => decide (e.legacy_receipt_id = c10r2.id)
          && decide (e.fee_component = Component.reg))) = 1 :=
  ⟨by decide, by decide, by decide, by decide⟩

/-- C10 (amended): for a resolved receipt with a positive component amount,
the events table holds at least two distinct events for that (legacy
receipt, component) — one from the history-reconstruction pass with the
signed amount −payment, and one from the per-receipt pass with the raw
positive amount, linked to the output receipt row — provided the receipt's
legacy student id equals the student id of the first receipt grouped under
its enrollment (the reconstruction pass only covers that student's
receipts). -/
theorem c10_duplicate_events_amended (lk : Lookups)
    (brs : List LegacyBalanceRecord) (rs : List LegacyReceipt)
    (r r0 : LegacyReceipt) (eid : String) (c : Component)
    (heid : find_enrollment_id lk r = some eid)
    (hr : r ∈ rs) (hp : 0 < paymentAmount r c)
    (hg : groupFirst lk rs eid = some r0)
    (hstud : r0.student_id = r.student_id) :
    ∃ e1 ∈ (transform_all_receipts lk rs brs).events,
      ∃ e2 ∈ (transform_all_receipts lk rs brs).events,
        e1 ≠ e2
        ∧ e1.legacy_receipt_id = r.id ∧ e1.fee_component = c
        ∧ e1.amount = -(paymentAmount r c)
        ∧ e2.legacy_receipt_id = r.id ∧ e2.fee_component = c
        ∧ e2.amount = paymentAmount r c
        ∧ (∃ rrec ∈ (transform_all_receipts lk rs brs).receipts,
            e2.receipt_id = some rrec.id ∧ rrec.legacy_receipt_id = r.id) := by
  have hkey : eid ∈ enrollmentKeys lk rs :=
    mem_enrollmentKeysAux lk eid r heid rs [] hr (List.not_mem_nil eid)
  have hsel : r ∈ sortByDate (rs.filter (fun r' =>
      r'.student_id == r0.student_id
        && find_enrollment_id lk r' == some eid)) := by
    rw [mem_sortByDate]
    refine List.mem_filter.mpr ⟨hr, ?_⟩
    rw [Bool.and_eq_true, beq_iff_eq, beq_iff_eq]
    exact ⟨hstud.symm, heid⟩
  have hfe : (⟨r, c, .PAYMENT_RECEIVED, -(paymentAmount r c),
      balanceAfter brs r c, false⟩ : FeeEvent)
      ∈ reconstruct_student_fee_history lk rs brs r0.student_id eid :=
    paymentEvent_mem_reconstructHistory brs r c hp _ hsel
  obtain ⟨e1, he1, h1en, h1id, h1c, h1am, -, -⟩ :=
    recoPass_mem lk rs brs (enrollmentKeys lk rs) 0 eid hkey r0 hg _ hfe
  obtain ⟨e2, he2, h2id, h2c, h2am, rrec, hrrec, h2rid, h2rleg⟩ :=
    perReceiptPass_event_exists lk brs r c eid heid hp rs ⟨[], 1⟩
      (recoPass lk rs brs (enrollmentKeys lk rs) 0).2 hr
  refine ⟨e1, List.mem_append_left _ he1, e2, List.mem_append_right _ he2,
    ?_, h1id, h1c, h1am, h2id, h2c, h2am, ⟨rrec, hrrec, h2rid, h2rleg⟩⟩
  intro heq
  have hamount : e1.amount = e2.amount := by rw [heq]
  rw [h1am, h2am] at hamount
  have hlit : (⟨r, c, .PAYMENT_RECEIVED, -(paymentAmount r c),
      balanceAfter brs r c, false⟩ : FeeEvent).amount = -(paymentAmount r c) := rfl
  rw [hlit] at hamount
  omega

/-- C10, witness: in the shared one-receipt run the hypotheses hold and the
duplicate pair of events exists. -/
theorem c10_witness :
    ∃ e1 ∈ (transform_all_receipts cexLk [cexRcpt] cexBrs).events,
      ∃ e2 ∈ (transform_all_receipts cexLk [cexRcpt] cexBrs).events,
        e1 ≠ e2
        ∧ e1.legacy_receipt_id = cexRcpt.id ∧ e1.fee_component = Component.reg
        ∧ e1.amount = -(paymentAmount cexRcpt Component.reg)
        ∧ e2.legacy_receipt_id = cexRcpt.id ∧ e2.fee_component = Component.reg
        ∧ e2.amount = paymentAmount cexRcpt Component.reg
        ∧ (∃ rrec ∈ (transform_all_receipts cexLk [cexRcpt] cexBrs).receipts,
            e2.receipt_id = some rrec.id ∧ rrec.legacy_receipt_id = cexRcpt.id) :=
  c10_duplicate_events_amended cexLk cexBrs [cexRcpt] cexRcpt cexRcpt "EN1"
    Component.reg (by decide) (by decide) (by decide) (by decide) rfl
